import Mathlib

/-!
Verification of the midos-mcp server against its specification.

The Python sources are shallowly embedded: pure helpers become Lean
functions on `String`/`List`/`Nat`/`ℚ`; stateful middleware becomes
explicit state passing; the filesystem, wall clock, embedding provider
and ANN engine are passed in as explicit parameters.  Python `float`
scores are modelled as rationals, SHA-256 fingerprints as the hashed
text itself (a collision-free abstraction), and Python `dict`s as
insertion-ordered association lists with in-place update.
-/

set_option maxRecDepth 20000

namespace MidosMCP

/-! ### Character/string primitives mirroring the Python `str` operations -/

/-- ASCII lowercasing of one character, as `str.lower` acts on ASCII. -/
def lowerChar (c : Char) : Char :=
  if 65 ≤ c.toNat ∧ c.toNat ≤ 90 then Char.ofNat (c.toNat + 32) else c

/-- `s.lower()` (all strings handled by the server are ASCII). -/
def strLower (s : String) : String := String.mk (s.toList.map lowerChar)

/-- Python whitespace test used by `str.strip`. -/
def isSpaceChar (c : Char) : Bool := c = ' ' ∨ c = '\t' ∨ c = '\n' ∨ c = '\r'

/-- `s.strip()`. -/
def strTrim (s : String) : String :=
  String.mk (((s.toList.dropWhile isSpaceChar).reverse.dropWhile isSpaceChar).reverse)

/-- `s[:n]` (character slicing). -/
def strTake (s : String) (n : Nat) : String := String.mk (s.toList.take n)

/-- `s.startswith(p)`. -/
def strStarts (s p : String) : Bool := p.toList.isPrefixOf s.toList

/-- Auxiliary scan for substring containment. -/
def subAux (needle : List Char) : List Char → Bool
  | [] => needle.isPrefixOf []
  | c :: cs => needle.isPrefixOf (c :: cs) || subAux needle cs

/-- Python `needle in hay` on strings. -/
def strContains (hay needle : String) : Bool := subAux needle.toList hay.toList

/-- `s.split(" ", 1)`: text before the first space, and the remainder if a
space exists. -/
def splitSpace1 : List Char → List Char × Option (List Char)
  | [] => ([], none)
  | c :: cs =>
      if c = ' ' then ([], some cs)
      else
        let r := splitSpace1 cs
        (c :: r.1, r.2)

/-- `s.split(sep)[0]` for a one-character separator. -/
def beforeChar (s : String) (sep : Char) : String :=
  String.mk (s.toList.takeWhile (· ≠ sep))

/-! ### Association-list model of Python `dict`

`setA` is in-place update: an existing key keeps its position (Python
dicts keep first-insertion order), a fresh key is appended. -/

def setA {α : Type} : List (String × α) → String → α → List (String × α)
  | [], k, v => [(k, v)]
  | (k', v') :: rest, k, v =>
      if k' = k then (k, v) :: rest else (k', v') :: setA rest k v

theorem lookup_setA_self {α : Type} (l : List (String × α)) (k : String) (v : α) :
    (setA l k v).lookup k = some v := by
  induction l with
  | nil => simp [setA, List.lookup]
  | cons hd tl ih =>
      obtain ⟨a, b⟩ := hd
      by_cases h : a = k
      · simp [setA, h, List.lookup]
      · have hk : (k == a) = false := by simp [Ne.symm h]
        simp [setA, h, List.lookup, hk, ih]

theorem lookup_setA_ne {α : Type} (l : List (String × α)) {k k' : String} (v : α)
    (h : k' ≠ k) : (setA l k v).lookup k' = l.lookup k' := by
  induction l with
  | nil =>
      have h1 : (k' == k) = false := by simp [h]
      simp [setA, List.lookup, h1]
  | cons hd tl ih =>
      obtain ⟨a, b⟩ := hd
      by_cases hh : a = k
      · subst hh
        have h1 : (k' == a) = false := by simp [h]
        simp [setA, List.lookup, h1]
      · by_cases h2 : k' = a
        · simp [setA, hh, List.lookup, h2]
        · have h3 : (k' == a) = false := by simp [h2]
          simp [setA, hh, List.lookup, h3, ih]

theorem lookup_eq_none_forall {α : Type} {l : List (String × α)} {k : String}
    (h : l.lookup k = none) : ∀ kv ∈ l, kv.1 ≠ k := by
  induction l with
  | nil => simp
  | cons hd tl ih =>
      obtain ⟨a, b⟩ := hd
      by_cases hk : a = k
      · rw [List.lookup, show (k == a) = true by simp [hk]] at h
        exact Option.noConfusion h
      · rw [List.lookup, show (k == a) = false by simp [Ne.symm hk]] at h
        intro kv hkv
        rcases List.mem_cons.mp hkv with h1 | h2
        · rw [h1]; simpa using hk
        · exact ih h kv h2

/-! ### `auth.py` — tier table, usage ledger and rate-limit middleware -/

/-- `FREE_TOOLS` (auth.py): tools callable without an API key. -/
def FREE_TOOLS : List String :=
  ["search_knowledge", "list_skills", "hive_status", "project_status",
   "pool_status", "get_eureka", "get_truth"]

/-- `TIER_LIMITS[tier]["queries_per_month"]`, with the `.get(tier, free)`
fallback of `_check_and_increment`. -/
def tierLimit (tier : String) : Nat :=
  if tier = "free" then 100
  else if tier = "dev" then 5000
  else if tier = "pro" then 25000
  else if tier = "team" then 100000
  else 100

/-- One record of `api_usage.json`. -/
structure UsageEntry where
  month : String
  count : Nat
deriving DecidableEq

/-- Mutable state of `ApiKeyMiddleware` relevant to quota accounting,
plus the on-disk usage file. -/
structure MwState where
  usageMem : List (String × Nat)
  usageMonth : String
  usageFlushTime : Nat
  disk : List (String × UsageEntry)
deriving DecidableEq

/-- Return value of `_check_and_increment`. -/
structure CheckResult where
  allowed : Bool
  count : Nat
  limit : Nat
deriving DecidableEq

/-- `_get_usage_count`: current month's count for an identifier, 0 when the
disk entry is missing or belongs to another month. -/
def getUsageCount (disk : List (String × UsageEntry)) (identifier month : String) : Nat :=
  match disk.lookup identifier with
  | some e => if e.month = month then e.count else 0
  | none => 0

/-- `_flush_usage`: write every in-memory counter to disk under the current
month. -/
def flushUsage (mem : List (String × Nat)) (disk : List (String × UsageEntry))
    (month : String) : List (String × UsageEntry) :=
  mem.foldl (fun d kv => setA d kv.1 ⟨month, kv.2⟩) disk

/-- `_check_and_increment`, step "Reset on new month": clear the in-memory
map and update the cached month. -/
def caiReset (st : MwState) (month : String) : MwState :=
  if month ≠ st.usageMonth
  then { st with usageMem := [], usageMonth := month } else st

/-- `_check_and_increment`, step "Load from disk if not in memory". -/
def caiLoad (st : MwState) (identifier month : String) : MwState :=
  if (st.usageMem.lookup identifier).isNone
  then { st with
           usageMem := setA st.usageMem identifier
             (getUsageCount st.disk identifier month) }
  else st

/-- `_check_and_increment`, step "Flush to disk every 30 seconds". -/
def caiFlush (st : MwState) (month : String) (now : Nat) : MwState :=
  if st.usageFlushTime + 30 < now
  then { st with disk := flushUsage st.usageMem st.disk month,
                 usageFlushTime := now }
  else st

/-- `ApiKeyMiddleware._check_and_increment`.  `month` is the value of
`_current_month()` during the call and `now` the value of `time.time()`. -/
def checkAndIncrement (st : MwState) (identifier tier month : String) (now : Nat) :
    CheckResult × MwState :=
  let limit := tierLimit tier
  let st2 := caiLoad (caiReset st month) identifier month
  let count := (st2.usageMem.lookup identifier).getD 0
  if limit ≤ count then
    (⟨false, count, limit⟩, st2)
  else
    let st3 := { st2 with usageMem := setA st2.usageMem identifier (count + 1) }
    (⟨true, count + 1, limit⟩, caiFlush st3 month now)

/-- The counter value the call will observe: the in-memory entry if the month
is unchanged and the entry exists, otherwise the on-disk value for `month`. -/
def effCount (st : MwState) (identifier month : String) : Nat :=
  if month ≠ st.usageMonth then getUsageCount st.disk identifier month
  else
    match st.usageMem.lookup identifier with
    | some c => c
    | none => getUsageCount st.disk identifier month

theorem caiReset_usageMonth (st : MwState) (m : String) :
    (caiReset st m).usageMonth = m := by
  unfold caiReset
  by_cases h : m ≠ st.usageMonth
  · simp [h]
  · simp only [ne_eq, not_not] at h
    simp [h]

theorem caiReset_disk (st : MwState) (m : String) : (caiReset st m).disk = st.disk := by
  unfold caiReset; split <;> rfl

theorem caiReset_flushTime (st : MwState) (m : String) :
    (caiReset st m).usageFlushTime = st.usageFlushTime := by
  unfold caiReset; split <;> rfl

theorem caiLoad_usageMonth (st : MwState) (id m : String) :
    (caiLoad st id m).usageMonth = st.usageMonth := by
  unfold caiLoad; split <;> rfl

theorem caiLoad_disk (st : MwState) (id m : String) :
    (caiLoad st id m).disk = st.disk := by
  unfold caiLoad; split <;> rfl

theorem caiLoad_flushTime (st : MwState) (id m : String) :
    (caiLoad st id m).usageFlushTime = st.usageFlushTime := by
  unfold caiLoad; split <;> rfl

theorem caiLoad_lookup_ne (st : MwState) {id id' : String} (m : String)
    (h : id' ≠ id) :
    (caiLoad st id m).usageMem.lookup id' = st.usageMem.lookup id' := by
  unfold caiLoad
  split
  · exact lookup_setA_ne _ _ h
  · rfl

theorem caiFlush_usageMem (st : MwState) (m : String) (now : Nat) :
    (caiFlush st m now).usageMem = st.usageMem := by
  unfold caiFlush; split <;> rfl

theorem caiFlush_usageMonth (st : MwState) (m : String) (now : Nat) :
    (caiFlush st m now).usageMonth = st.usageMonth := by
  unfold caiFlush; split <;> rfl

theorem lookup_flush_of_absent (mem : List (String × Nat))
    (disk : List (String × UsageEntry)) (month id' : String)
    (h : mem.lookup id' = none) :
    (flushUsage mem disk month).lookup id' = disk.lookup id' := by
  induction mem generalizing disk with
  | nil => rfl
  | cons hd tl ih =>
      obtain ⟨a, b⟩ := hd
      have ha : ¬(id' = a) := by
        intro hh
        rw [List.lookup, show (id' == a) = true by simp [hh]] at h
        exact Option.noConfusion h
      have ht : tl.lookup id' = none := by
        rwa [List.lookup, show (id' == a) = false by simp [ha]] at h
      show (flushUsage tl (setA disk a ⟨month, b⟩) month).lookup id' = _
      rw [ih _ ht, lookup_setA_ne _ _ ha]

theorem caiFlush_lookup_disk_ne (st : MwState) (m : String) (now : Nat)
    {id' : String} (h : st.usageMem.lookup id' = none) :
    (caiFlush st m now).disk.lookup id' = st.disk.lookup id' := by
  unfold caiFlush
  split
  · exact lookup_flush_of_absent _ _ _ _ h
  · rfl

/-- After the reset and load steps, the in-memory entry for the identifier
holds exactly `effCount`. -/
theorem caiLoad_reset_lookup_self (st : MwState) (id m : String) :
    (caiLoad (caiReset st m) id m).usageMem.lookup id
      = some (effCount st id m) := by
  unfold caiLoad caiReset effCount
  by_cases hm : m ≠ st.usageMonth
  · rw [if_pos hm, if_pos hm]
    simp only [List.lookup, Option.isNone_none, if_pos rfl]
    simp
  · rw [if_neg hm, if_neg hm]
    cases hmem : st.usageMem.lookup id with
    | none =>
        rw [if_pos (by simp [hmem])]
        exact lookup_setA_self _ _ _
    | some c =>
        rw [if_neg (by simp [hmem])]
        exact hmem

theorem caiLoad_reset_lookup_ne (st : MwState) {id id' : String} (m : String)
    (hne : id' ≠ id) (hm : m = st.usageMonth) :
    (caiLoad (caiReset st m) id m).usageMem.lookup id'
      = st.usageMem.lookup id' := by
  rw [caiLoad_lookup_ne _ _ hne]
  unfold caiReset
  rw [if_neg (by simp [hm])]

/-- Deny branch of `_check_and_increment`: at or above the limit the call
returns `(false, count, limit)`, leaves the stored counter at its value and
does not touch the disk. -/
theorem checkAndIncrement_deny (st : MwState) (id tier m : String) (now : Nat)
    (h : tierLimit tier ≤ effCount st id m) :
    (checkAndIncrement st id tier m now).1
        = ⟨false, effCount st id m, tierLimit tier⟩ ∧
    (checkAndIncrement st id tier m now).2.usageMem.lookup id
        = some (effCount st id m) ∧
    (checkAndIncrement st id tier m now).2.disk = st.disk ∧
    (checkAndIncrement st id tier m now).2.usageMonth = m := by
  simp only [checkAndIncrement]
  rw [caiLoad_reset_lookup_self]
  simp only [Option.getD_some]
  rw [if_pos h]
  refine ⟨rfl, ?_, ?_, ?_⟩
  · exact caiLoad_reset_lookup_self st id m
  · rw [caiLoad_disk, caiReset_disk]
  · rw [caiLoad_usageMonth, caiReset_usageMonth]

/-- Allow branch of `_check_and_increment`: below the limit the call returns
`(true, count+1, limit)` and stores `count+1`. -/
theorem checkAndIncrement_allow (st : MwState) (id tier m : String) (now : Nat)
    (h : effCount st id m < tierLimit tier) :
    (checkAndIncrement st id tier m now).1
        = ⟨true, effCount st id m + 1, tierLimit tier⟩ ∧
    (checkAndIncrement st id tier m now).2.usageMem.lookup id
        = some (effCount st id m + 1) ∧
    (checkAndIncrement st id tier m now).2.usageMonth = m := by
  simp only [checkAndIncrement]
  rw [caiLoad_reset_lookup_self]
  simp only [Option.getD_some]
  rw [if_neg (by omega)]
  refine ⟨rfl, ?_, ?_⟩
  · rw [caiFlush_usageMem]
    exact lookup_setA_self _ _ _
  · rw [caiFlush_usageMonth]
    show (caiLoad (caiReset st m) id m).usageMonth = m
    rw [caiLoad_usageMonth, caiReset_usageMonth]

/-- A call in the current month leaves other identifiers' effective counters
untouched. -/
theorem checkAndIncrement_other (st : MwState) (id id' tier m : String) (now : Nat)
    (hm : m = st.usageMonth) (hne : id' ≠ id) :
    effCount (checkAndIncrement st id tier m now).2 id' m
      = effCount st id' m := by
  have hmonth : ∀ st' : MwState, st'.usageMonth = m →
      st'.usageMem.lookup id' = st.usageMem.lookup id' →
      (st.usageMem.lookup id' = none →
        st'.disk.lookup id' = st.disk.lookup id') →
      effCount st' id' m = effCount st id' m := by
    intro st' h1 h2 h3
    unfold effCount
    rw [if_neg (by simp [h1]), if_neg (by simp [hm]), h2]
    cases hmem : st.usageMem.lookup id' with
    | some c => rfl
    | none =>
        unfold getUsageCount
        rw [h3 hmem]
  simp only [checkAndIncrement]
  rw [caiLoad_reset_lookup_self]
  simp only [Option.getD_some]
  split
  · apply hmonth
    · rw [caiLoad_usageMonth, caiReset_usageMonth]
    · exact caiLoad_reset_lookup_ne st m hne hm
    · intro _
      rw [caiLoad_disk, caiReset_disk]
  · apply hmonth
    · rw [caiFlush_usageMonth]
      show (caiLoad (caiReset st m) id m).usageMonth = m
      rw [caiLoad_usageMonth, caiReset_usageMonth]
    · rw [caiFlush_usageMem]
      show (setA (caiLoad (caiReset st m) id m).usageMem id _).lookup id' = _
      rw [lookup_setA_ne _ _ hne, caiLoad_reset_lookup_ne st m hne hm]
    · intro hmem
      have habs : ({ caiLoad (caiReset st m) id m with
          usageMem := setA (caiLoad (caiReset st m) id m).usageMem id
            (effCount st id m + 1) } : MwState).usageMem.lookup id' = none := by
        show (setA (caiLoad (caiReset st m) id m).usageMem id _).lookup id' = _
        rw [lookup_setA_ne _ _ hne, caiLoad_reset_lookup_ne st m hne hm]
        exact hmem
      rw [caiFlush_lookup_disk_ne _ _ _ habs]
      show (caiLoad (caiReset st m) id m).disk.lookup id' = _
      rw [caiLoad_disk, caiReset_disk]

theorem effCount_of_lookup {st : MwState} {id m : String} {c : Nat}
    (h1 : st.usageMonth = m) (h2 : st.usageMem.lookup id = some c) :
    effCount st id m = c := by
  unfold effCount
  rw [if_neg (by simp [h1]), h2]

/-- One gated call: identifier, tier, and the wall-clock month and time at
which the middleware runs it. -/
structure QuotaCall where
  ident : String
  tier : String
  month : String
  now : Nat

/-- Run a sequence of `_check_and_increment` calls, threading the middleware
state, and pair every call with its result. -/
def runCalls (st : MwState) : List QuotaCall → List (QuotaCall × CheckResult)
  | [] => []
  | c :: cs =>
      (c, (checkAndIncrement st c.ident c.tier c.month c.now).1)
        :: runCalls (checkAndIncrement st c.ident c.tier c.month c.now).2 cs

/-- The counters returned to one identifier by the allowed calls of a run. -/
def allowedCountsFor (id : String) (l : List (QuotaCall × CheckResult)) : List Nat :=
  l.filterMap (fun p => if p.1.ident = id ∧ p.2.allowed then some p.2.count else none)

theorem counters_strict_mono (id m : String) :
    ∀ (calls : List QuotaCall) (st : MwState), st.usageMonth = m →
      (∀ c ∈ calls, c.month = m) →
      List.Chain' (· < ·) (allowedCountsFor id (runCalls st calls)) ∧
      (∀ x ∈ allowedCountsFor id (runCalls st calls), effCount st id m < x) := by
  intro calls
  induction calls with
  | nil =>
      intro st _ _
      simp [runCalls, allowedCountsFor]
  | cons c cs ih =>
      intro st hst hall
      obtain ⟨cid, ctier, cm, cnow⟩ := c
      have hcm : cm = m := hall _ (List.mem_cons_self _ _)
      subst cm
      have hcs : ∀ c' ∈ cs, c'.month = m := fun c' hc' => hall c' (List.mem_cons_of_mem _ hc')
      by_cases hid : cid = id
      · subst hid
        rcases lt_or_ge (effCount st cid m) (tierLimit ctier) with hlt | hge
        · -- allowed call for this identifier
          obtain ⟨ha1, ha2, ha3⟩ := checkAndIncrement_allow st cid ctier m cnow hlt
          have heff : effCount (checkAndIncrement st cid ctier m cnow).2 cid m
              = effCount st cid m + 1 := effCount_of_lookup ha3 ha2
          obtain ⟨ihc, ihb⟩ := ih (checkAndIncrement st cid ctier m cnow).2 ha3 hcs
          rw [heff] at ihb
          have hlist : allowedCountsFor cid
              (runCalls st (⟨cid, ctier, m, cnow⟩ :: cs))
              = (effCount st cid m + 1)
                :: allowedCountsFor cid
                    (runCalls (checkAndIncrement st cid ctier m cnow).2 cs) := by
            simp [runCalls, allowedCountsFor, ha1]
          rw [hlist]
          constructor
          · rw [List.chain'_cons']
            exact ⟨fun y hy => ihb y (List.mem_of_mem_head? hy), ihc⟩
          · intro x hx
            rcases List.mem_cons.mp hx with h1 | h2
            · omega
            · have := ihb x h2
              omega
        · -- denied call for this identifier
          obtain ⟨hd1, hd2, _, hd4⟩ := checkAndIncrement_deny st cid ctier m cnow hge
          have heff : effCount (checkAndIncrement st cid ctier m cnow).2 cid m
              = effCount st cid m := effCount_of_lookup hd4 hd2
          obtain ⟨ihc, ihb⟩ := ih (checkAndIncrement st cid ctier m cnow).2 hd4 hcs
          rw [heff] at ihb
          have hlist : allowedCountsFor cid
              (runCalls st (⟨cid, ctier, m, cnow⟩ :: cs))
              = allowedCountsFor cid
                  (runCalls (checkAndIncrement st cid ctier m cnow).2 cs) := by
            simp [runCalls, allowedCountsFor, hd1]
          rw [hlist]
          exact ⟨ihc, ihb⟩
      · -- call for another identifier
        have hmonth : (checkAndIncrement st cid ctier m cnow).2.usageMonth = m := by
          rcases lt_or_ge (effCount st cid m) (tierLimit ctier) with hlt | hge
          · exact (checkAndIncrement_allow st cid ctier m cnow hlt).2.2
          · exact (checkAndIncrement_deny st cid ctier m cnow hge).2.2.2
        have heff : effCount (checkAndIncrement st cid ctier m cnow).2 id m
            = effCount st id m :=
          checkAndIncrement_other st cid id ctier m cnow hst.symm (Ne.symm hid)
        obtain ⟨ihc, ihb⟩ := ih (checkAndIncrement st cid ctier m cnow).2 hmonth hcs
        rw [heff] at ihb
        have hlist : allowedCountsFor id
            (runCalls st (⟨cid, ctier, m, cnow⟩ :: cs))
            = allowedCountsFor id
                (runCalls (checkAndIncrement st cid ctier m cnow).2 cs) := by
          simp [runCalls, allowedCountsFor, hid]
        rw [hlist]
        exact ⟨ihc, ihb⟩

/-- First allowed call after a month change: the in-memory map is cleared,
the identifier reloads as 0 from disk (no current-month entry), and the call
returns counter 1. -/
theorem checkAndIncrement_reset (st : MwState) (id tier m : String) (now : Nat)
    (h1 : m ≠ st.usageMonth) (h2 : getUsageCount st.disk id m = 0)
    (h3 : 0 < tierLimit tier) :
    (checkAndIncrement st id tier m now).1 = ⟨true, 1, tierLimit tier⟩ := by
  have he : effCount st id m = 0 := by
    unfold effCount
    rw [if_pos h1, h2]
  have h := (checkAndIncrement_allow st id tier m now (by rw [he]; exact h3)).1
  rwa [he] at h

/-- C1: for every identifier and tier with monthly limit `L`,
`_check_and_increment` returns `(false, count, limit)` without changing the
stored count when `count ≥ L`, otherwise stores and returns `count + 1`;
over any same-month sequence of calls the counters returned to an identifier
by allowed calls are strictly increasing, and the first allowed call after a
month change (no current-month disk entry) returns 1. -/
theorem claim_C1_check_and_increment :
    (∀ (st : MwState) (id tier m : String) (now : Nat),
      tierLimit tier ≤ effCount st id m →
      (checkAndIncrement st id tier m now).1
          = ⟨false, effCount st id m, tierLimit tier⟩ ∧
      (checkAndIncrement st id tier m now).2.usageMem.lookup id
          = some (effCount st id m) ∧
      (checkAndIncrement st id tier m now).2.disk = st.disk) ∧
    (∀ (st : MwState) (id tier m : String) (now : Nat),
      effCount st id m < tierLimit tier →
      (checkAndIncrement st id tier m now).1
          = ⟨true, effCount st id m + 1, tierLimit tier⟩ ∧
      (checkAndIncrement st id tier m now).2.usageMem.lookup id
          = some (effCount st id m + 1)) ∧
    (∀ (id m : String) (calls : List QuotaCall) (st : MwState),
      st.usageMonth = m → (∀ c ∈ calls, c.month = m) →
      List.Chain' (· < ·) (allowedCountsFor id (runCalls st calls))) ∧
    (∀ (st : MwState) (id tier m : String) (now : Nat),
      m ≠ st.usageMonth → getUsageCount st.disk id m = 0 → 0 < tierLimit tier →
      (checkAndIncrement st id tier m now).1 = ⟨true, 1, tierLimit tier⟩) := by
  refine ⟨?_, ?_, ?_, ?_⟩
  · intro st id tier m now h
    obtain ⟨h1, h2, h3, _⟩ := checkAndIncrement_deny st id tier m now h
    exact ⟨h1, h2, h3⟩
  · intro st id tier m now h
    obtain ⟨h1, h2, _⟩ := checkAndIncrement_allow st id tier m now h
    exact ⟨h1, h2⟩
  · intro id m calls st h1 h2
    exact (counters_strict_mono id m calls st h1 h2).1
  · exact checkAndIncrement_reset

/-- Witness for C1 at concrete states: a saturated counter is denied without
mutation, a fresh counter is granted, two same-month calls return strictly
increasing counters, and a month change resets the counter to 1. -/
theorem claim_C1_witness :
    (tierLimit "free"
        ≤ effCount (⟨[("k", 100)], "2026-10", 0, []⟩ : MwState) "k" "2026-10") ∧
    (checkAndIncrement (⟨[("k", 100)], "2026-10", 0, []⟩ : MwState)
        "k" "free" "2026-10" 5).1
      = ⟨false, effCount (⟨[("k", 100)], "2026-10", 0, []⟩ : MwState) "k" "2026-10",
          tierLimit "free"⟩ ∧
    (effCount (⟨[], "2026-10", 0, []⟩ : MwState) "k" "2026-10" < tierLimit "free") ∧
    (checkAndIncrement (⟨[], "2026-10", 0, []⟩ : MwState) "k" "free" "2026-10" 5).1
      = ⟨true, effCount (⟨[], "2026-10", 0, []⟩ : MwState) "k" "2026-10" + 1,
          tierLimit "free"⟩ ∧
    List.Chain' (· < ·) (allowedCountsFor "k"
      (runCalls (⟨[], "2026-10", 0, []⟩ : MwState)
        [⟨"k", "free", "2026-10", 1⟩, ⟨"k", "free", "2026-10", 2⟩])) ∧
    (checkAndIncrement (⟨[], "2026-09", 0, [("k", ⟨"2026-09", 7⟩)]⟩ : MwState)
        "k" "free" "2026-10" 5).1
      = ⟨true, 1, tierLimit "free"⟩ :=
  ⟨by decide,
   (claim_C1_check_and_increment.1 _ "k" "free" "2026-10" 5 (by decide)).1,
   by decide,
   (claim_C1_check_and_increment.2.1 _ "k" "free" "2026-10" 5 (by decide)).1,
   claim_C1_check_and_increment.2.2.1 "k" "2026-10" _ _ (by decide) (by decide),
   claim_C1_check_and_increment.2.2.2 _ "k" "free" "2026-10" 5 (by decide)
     (by decide) (by decide)⟩

/-! ### `auth.py` — header parsing and the per-call gate -/

/-- One record of `api_keys.json` (`tier` may be absent; `_resolve_tier`
falls back to `"dev"`). -/
structure KeyInfo where
  tier : Option String
  active : Bool
deriving DecidableEq

/-- The request headers the middleware reads. -/
structure Headers where
  xForwardedFor : Option String := none
  xRealIp : Option String := none
  host : Option String := none
  authorization : Option String := none
deriving DecidableEq

/-- `local_addrs` in `_is_localhost`. -/
def localAddrs : List String := ["127.0.0.1", "::1", "localhost"]

/-- `ApiKeyMiddleware._is_localhost`. -/
def isLocalhost (h : Headers) : Bool :=
  let forwarded := strTrim (beforeChar (h.xForwardedFor.getD "") ',')
  let realIp := h.xRealIp.getD ""
  let host := h.host.getD ""
  if (forwarded != "") && localAddrs.contains forwarded then true
  else if (realIp != "") && localAddrs.contains realIp then true
  else
    let hostName := if host != "" then beforeChar host ':' else ""
    localAddrs.contains hostName

/-- `ApiKeyMiddleware._resolve_tier`: returns `(tier, key-or-none)` where the
tier is `"invalid"` for unknown or revoked keys. -/
def resolveTier (keys : List (String × KeyInfo)) (h : Headers) : String × Option String :=
  if isLocalhost h then ("pro", none)
  else
    let auth := h.authorization.getD ""
    if auth = "" then ("free", none)
    else
      match splitSpace1 auth.toList with
      | (_, none) => ("free", none)
      | (p0, some rest) =>
          if strLower (String.mk p0) ≠ "bearer" then ("free", none)
          else
            let token := strTrim (String.mk rest)
            if strStarts token "midos_sk_" = false then ("free", none)
            else
              match keys.lookup token with
              | none => ("invalid", some token)
              | some ki =>
                  if ki.active = false then ("invalid", some token)
                  else (ki.tier.getD "dev", some token)

/-- `ApiKeyMiddleware._get_anonymous_id`: `"anon_" + sha256(ip)[:16]`; the
hash is modelled by the ip string itself (collision-free abstraction). -/
def anonymousId (h : Headers) : String :=
  "anon_" ++ (h.xForwardedFor.getD (h.xRealIp.getD "anonymous"))

/-- The `ToolError`s `on_call_tool` can raise, by kind. -/
inductive ToolErr where
  | invalidKey
  | requiresKey (toolName : String)
  | rateLimited (count limit : Nat)
deriving DecidableEq

/-- Outcome of the gate: an error, or the call proceeds to the handler. -/
inductive GateOutcome where
  | fail (e : ToolErr)
  | proceed (tier : String) (identifier : String)
deriving DecidableEq

/-- `ApiKeyMiddleware.on_call_tool` up to the point where the tool handler
runs: invalid-key check, free-tool tier gating, then the quota check. -/
def onCallTool (keys : List (String × KeyInfo)) (st : MwState) (h : Headers)
    (toolName month : String) (now : Nat) : GateOutcome × MwState :=
  let tk := resolveTier keys h
  if tk.1 = "invalid" then (.fail .invalidKey, st)
  else if toolName ∉ FREE_TOOLS ∧ tk.1 = "free" ∧ tk.2 = none then
    (.fail (.requiresKey toolName), st)
  else
    let identifier := tk.2.getD (anonymousId h)
    let r := checkAndIncrement st identifier tk.1 month now
    if r.1.allowed then (.proceed tk.1 identifier, r.2)
    else (.fail (.rateLimited r.1.count r.1.limit), r.2)

/-! ### `midos_mcp.py` — document tools -/

/-- Decimal digits of a fueled natural number. -/
def natDigitsAux : Nat → Nat → List Char
  | 0, _ => []
  | fuel + 1, n =>
      if n = 0 then []
      else natDigitsAux fuel (n / 10) ++ [Char.ofNat (48 + n % 10)]

/-- Decimal rendering of a natural number (for f-string interpolation). -/
def natStr (n : Nat) : String :=
  if n = 0 then "0" else String.mk (natDigitsAux (n + 1) n)

/-- `get_file_content`: cap at 10 000 characters with a truncation marker. -/
def getFileContent (content : String) : String :=
  if content.length > 10000 then
    strTake content 10000 ++ "\n\n[...truncated, " ++ natStr content.length
      ++ " total chars]"
  else content

/-- A single quote character (for Python `repr` of strings). -/
def sq : String := String.singleton (Char.ofNat 39)

/-- Separator-joined concatenation. -/
def joinSep (sep : String) : List String → String
  | [] => ""
  | [x] => x
  | x :: xs => x ++ sep ++ joinSep sep xs

/-- Python `f"{xs}"` for a list of strings: `['a', 'b']`. -/
def pyStrList (xs : List String) : String :=
  "[" ++ joinSep ", " (xs.map (fun x => sq ++ x ++ sq)) ++ "]"

/-- `get_skill` (midos_mcp.py).  `direct` is the content of
`SKILLS_DIR / f"{name}.md"` when that path exists on disk (`name` may contain
path separators, so this is a separate input from the glob listing); `files`
lists `SKILLS_DIR.glob("*.md")` as `(stem, content)` pairs in glob order. -/
def getSkill (direct : Option String) (files : List (String × String))
    (name : String) : String :=
  match direct with
  | some content => getFileContent content
  | none =>
      match files.find? (fun f => strLower f.1 == strLower name) with
      | some f => getFileContent f.2
      | none =>
          "Skill not found: " ++ name ++ "\n\nAvailable skills: "
            ++ pyStrList ((files.map (·.1)).take 20)

/-- `get_eureka` (midos_mcp.py), same shape as `get_skill` over `EUREKA_DIR`. -/
def getEureka (direct : Option String) (files : List (String × String))
    (name : String) : String :=
  match direct with
  | some content => getFileContent content
  | none =>
      match files.find? (fun f => strLower f.1 == strLower name) with
      | some f => getFileContent f.2
      | none =>
          "EUREKA not found: " ++ name ++ "\n\nAvailable EUREKA documents: "
            ++ pyStrList ((files.map (·.1)).take 20)

theorem strMk_toList (s : String) : String.mk s.toList = s := rfl

theorem splitSpace1_bearer (tok : String) :
    splitSpace1 (("Bearer " ++ tok).toList) = ("Bearer".toList, some tok.toList) := by
  show splitSpace1 ("Bearer ".toList ++ tok.toList) = _
  simp [splitSpace1]

theorem resolveTier_bearer_non_midos (keys : List (String × KeyInfo)) (h : Headers)
    (tok : String)
    (h1 : isLocalhost h = false)
    (h2 : h.authorization = some ("Bearer " ++ tok))
    (h3 : strStarts (strTrim tok) "midos_sk_" = false) :
    resolveTier keys h = ("free", none) := by
  have hne : ("Bearer " ++ tok) ≠ "" := by
    intro hc
    have hd : ("Bearer " ++ tok).toList = "".toList := congrArg String.toList hc
    rw [show ("Bearer " ++ tok).toList = "Bearer ".toList ++ tok.toList from rfl] at hd
    simp at hd
  simp only [resolveTier, h2, Option.getD_some]
  rw [if_neg (by simp [h1]), if_neg hne]
  simp only [splitSpace1_bearer]
  rw [if_neg (by decide), strMk_toList, if_pos h3]

theorem gate_free_tool_proceeds (keys : List (String × KeyInfo)) (st : MwState)
    (h : Headers) (tool month : String) (now : Nat)
    (hrt : resolveTier keys h = ("free", none))
    (hft : tool ∈ FREE_TOOLS)
    (hq : effCount st (anonymousId h) month < tierLimit "free") :
    (onCallTool keys st h tool month now).1
      = .proceed "free" (anonymousId h) := by
  simp only [onCallTool, hrt]
  rw [if_neg (by decide)]
  rw [if_neg (by simp [hft])]
  simp only [Option.getD_none]
  obtain ⟨ha1, _, _⟩ := checkAndIncrement_allow st (anonymousId h) "free" month now hq
  rw [ha1]
  simp

/-- C2 (code-bug evidence): `get_skill` is absent from `FREE_TOOLS`, so an
unauthenticated `tools/call` of `get_skill` raises the "requires an API key"
tool error instead of succeeding with truncated content; and the handler
itself never truncates at 400 characters — a 900-character skill file is
returned in full with no upgrade marker (`pricing` / `Full content`). -/
theorem claim_C2_get_skill_gated_untruncated :
    "get_skill" ∉ FREE_TOOLS ∧
    (onCallTool [] ⟨[], "2026-10", 0, []⟩ ⟨none, none, none, none⟩
        "get_skill" "2026-10" 1).1 = .fail (.requiresKey "get_skill") ∧
    getSkill (some (String.mk (List.replicate 900 'a'))) [] "angular"
        = String.mk (List.replicate 900 'a') ∧
    (getSkill (some (String.mk (List.replicate 900 'a'))) [] "angular").length
        = 900 ∧
    strContains (getSkill (some (String.mk (List.replicate 900 'a'))) [] "angular")
        "pricing" = false ∧
    strContains (getSkill (some (String.mk (List.replicate 900 'a'))) [] "angular")
        "Full content" = false := by
  decide

/-- C3 (code-bug evidence): `get_eureka` is a member of `FREE_TOOLS`, so the
gate lets an unauthenticated `tools/call` of `get_eureka` proceed to the
handler; on an unknown name the handler answers with a not-found text that
contains neither `requires` nor `tier`. -/
theorem claim_C3_get_eureka_ungated :
    "get_eureka" ∈ FREE_TOOLS ∧
    resolveTier [] ⟨none, none, none, none⟩ = ("free", none) ∧
    (onCallTool [] ⟨[], "2026-10", 0, []⟩ ⟨none, none, none, none⟩
        "get_eureka" "2026-10" 1).1 = .proceed "free" "anon_anonymous" ∧
    strContains (getEureka none [("EUREKA_CACHE", "doc")] "any") "requires"
        = false ∧
    strContains (getEureka none [("EUREKA_CACHE", "doc")] "any") "tier"
        = false ∧
    getEureka none [("EUREKA_CACHE", "doc")] "any"
        = "EUREKA not found: any\n\nAvailable EUREKA documents: ["
            ++ sq ++ "EUREKA_CACHE" ++ sq ++ "]" := by
  decide

/-- C4 counterexample: a bearer token of length 128 that starts with
`midos_sk_` but is unknown to the key store is *not* treated as
unauthenticated — `_resolve_tier` classifies it `invalid` and the gate
raises the invalid-key error, even on a free-tier tool. -/
theorem claim_C4_counterexample :
    ("midos_sk_" ++ String.mk (List.replicate 119 'a')).length ≥ 128 ∧
    resolveTier []
        ⟨none, none, none,
          some ("Bearer " ++ ("midos_sk_" ++ String.mk (List.replicate 119 'a')))⟩
      = ("invalid", some ("midos_sk_" ++ String.mk (List.replicate 119 'a'))) ∧
    (onCallTool [] ⟨[], "2026-10", 0, []⟩
        ⟨none, none, none,
          some ("Bearer " ++ ("midos_sk_" ++ String.mk (List.replicate 119 'a')))⟩
        "search_knowledge" "2026-10" 1).1 = .fail .invalidKey := by
  decide

/-- C4 (amended): a bearer token whose trimmed text does not start with
`midos_sk_` — of any length, 128 characters or more included — makes the
request unauthenticated (`tier = free`, `key = none`), no invalid-key error
is raised, and free-tier tools remain callable; length itself is never
inspected. -/
theorem claim_C4_non_midos_token_unauthenticated
    (keys : List (String × KeyInfo)) (st : MwState) (h : Headers)
    (tok tool month : String) (now : Nat)
    (h1 : isLocalhost h = false)
    (h2 : h.authorization = some ("Bearer " ++ tok))
    (h3 : strStarts (strTrim tok) "midos_sk_" = false)
    (h4 : effCount st (anonymousId h) month < tierLimit "free")
    (h5 : tool ∈ FREE_TOOLS) :
    resolveTier keys h = ("free", none) ∧
    (onCallTool keys st h tool month now).1
      = .proceed "free" (anonymousId h) := by
  have hrt := resolveTier_bearer_non_midos keys h tok h1 h2 h3
  exact ⟨hrt, gate_free_tool_proceeds keys st h tool month now hrt h5 h4⟩

/-- Witness for the amended C4 at a concrete 200-character token. -/
theorem claim_C4_witness :
    isLocalhost
        ⟨none, none, none,
          some ("Bearer " ++ String.mk (List.replicate 200 'a'))⟩ = false ∧
    strStarts (strTrim (String.mk (List.replicate 200 'a'))) "midos_sk_" = false ∧
    effCount ⟨[], "2026-10", 0, []⟩
        (anonymousId ⟨none, none, none,
          some ("Bearer " ++ String.mk (List.replicate 200 'a'))⟩) "2026-10"
        < tierLimit "free" ∧
    "hive_status" ∈ FREE_TOOLS ∧
    (resolveTier []
        ⟨none, none, none,
          some ("Bearer " ++ String.mk (List.replicate 200 'a'))⟩
        = ("free", none) ∧
      (onCallTool [] ⟨[], "2026-10", 0, []⟩
        ⟨none, none, none,
          some ("Bearer " ++ String.mk (List.replicate 200 'a'))⟩
        "hive_status" "2026-10" 1).1
        = .proceed "free"
            (anonymousId ⟨none, none, none,
              some ("Bearer " ++ String.mk (List.replicate 200 'a'))⟩)) :=
  ⟨by decide, by decide, by decide, by decide,
   claim_C4_non_midos_token_unauthenticated [] ⟨[], "2026-10", 0, []⟩
     ⟨none, none, none, some ("Bearer " ++ String.mk (List.replicate 200 'a'))⟩
     (String.mk (List.replicate 200 'a')) "hive_status" "2026-10" 1
     (by decide) rfl (by decide) (by decide) (by decide)⟩

theorem isPrefixOf_append {l₁ l₂ l₃ : List Char}
    (h : l₁.isPrefixOf l₂ = true) : l₁.isPrefixOf (l₂ ++ l₃) = true := by
  rw [List.isPrefixOf_iff_prefix] at h ⊢
  exact h.trans (List.prefix_append l₂ l₃)

theorem subAux_append_left {n l₁ : List Char} (l₂ : List Char)
    (h : subAux n l₁ = true) : subAux n (l₁ ++ l₂) = true := by
  induction l₁ with
  | nil =>
      have hn : n = [] := by
        cases n with
        | nil => rfl
        | cons c cs => simp [subAux, List.isPrefixOf] at h
      subst hn
      cases l₂ with
      | nil => simpa using h
      | cons c cs => simp [subAux, List.isPrefixOf]
  | cons c cs ih =>
      rw [subAux] at h
      rcases Bool.or_eq_true_iff.mp h with h1 | h1
      · show subAux n (c :: (cs ++ l₂)) = true
        rw [subAux, Bool.or_eq_true_iff]
        exact Or.inl (isPrefixOf_append h1)
      · show subAux n (c :: (cs ++ l₂)) = true
        rw [subAux, Bool.or_eq_true_iff]
        exact Or.inr (ih h1)

theorem strContains_append_left (s t needle : String)
    (h : strContains s needle = true) : strContains (s ++ t) needle = true := by
  unfold strContains at h ⊢
  rw [show (s ++ t).toList = s.toList ++ t.toList from rfl]
  exact subAux_append_left _ h

/-- C5 counterexample: with a single skill `react` on disk and no file at
`SKILLS_DIR / "../../../etc/passwd.md"`, the traversal name yields a
not-found result — but the message echoes the requested name, so the
response text does contain the substring `passwd`, which the claim forbids. -/
theorem claim_C5_counterexample :
    getSkill none [("react", "React skill")] "../../../etc/passwd"
      = "Skill not found: ../../../etc/passwd\n\nAvailable skills: ["
          ++ sq ++ "react" ++ sq ++ "]" ∧
    strContains (getSkill none [("react", "React skill")] "../../../etc/passwd")
      "passwd" = true := by
  decide

/-- C5 (amended): when no skill file resolves for the traversal name
`../../../etc/passwd` — directly or by case-insensitive stem match —
`get_skill` returns the not-found message and no file content; the message
embeds the requested name verbatim and therefore contains `passwd`. -/
theorem claim_C5_traversal_not_found (files : List (String × String))
    (hmatch : ∀ f ∈ files, strLower f.1 ≠ strLower "../../../etc/passwd") :
    getSkill none files "../../../etc/passwd"
      = "Skill not found: ../../../etc/passwd\n\nAvailable skills: "
          ++ pyStrList ((files.map (·.1)).take 20) ∧
    strContains (getSkill none files "../../../etc/passwd") "passwd" = true := by
  have hf : files.find?
      (fun f => strLower f.1 == strLower "../../../etc/passwd") = none := by
    rw [List.find?_eq_none]
    intro f hmem
    simpa using hmatch f hmem
  have heq : getSkill none files "../../../etc/passwd"
      = "Skill not found: ../../../etc/passwd\n\nAvailable skills: "
          ++ pyStrList ((files.map (·.1)).take 20) := by
    simp only [getSkill, hf]
    rfl
  refine ⟨heq, ?_⟩
  rw [heq]
  exact strContains_append_left _ _ _ (by decide)

/-- Witness for the amended C5 at the one-skill directory. -/
theorem claim_C5_witness :
    (∀ f ∈ [("react", "React skill")],
        strLower f.1 ≠ strLower "../../../etc/passwd") ∧
    (getSkill none [("react", "React skill")] "../../../etc/passwd"
        = "Skill not found: ../../../etc/passwd\n\nAvailable skills: "
            ++ pyStrList (([("react", "React skill")].map (·.1)).take 20) ∧
      strContains (getSkill none [("react", "React skill")] "../../../etc/passwd")
        "passwd" = true) :=
  ⟨by decide, claim_C5_traversal_not_found [("react", "React skill")] (by decide)⟩

/-! ### `urllib.parse.urlparse` — the scheme/hostname fragment used by
`research_youtube` -/

/-- ASCII uppercasing of one character, as `str.upper` acts on ASCII. -/
def upperChar (c : Char) : Char :=
  if 97 ≤ c.toNat ∧ c.toNat ≤ 122 then Char.ofNat (c.toNat - 32) else c

/-- `s.upper()`. -/
def strUpper (s : String) : String := String.mk (s.toList.map upperChar)

/-- Membership in CPython's `_WHATWG_C0_CONTROL_OR_SPACE` (`'\x00'`-`'\x1f'`
and the space character). -/
def isC0OrSpace (c : Char) : Bool := c.toNat ≤ 32

/-- `url.lstrip(_WHATWG_C0_CONTROL_OR_SPACE)`. -/
def lstripC0 (l : List Char) : List Char := l.dropWhile isC0OrSpace

/-- `url.replace(b, "")` for each of `_UNSAFE_URL_BYTES_TO_REMOVE`
(tab, CR, LF). -/
def removeUnsafe (l : List Char) : List Char :=
  l.filter (fun c => c != '\t' && c != '\r' && c != '\n')

/-- The normalization `urlsplit` applies before parsing: left-strip
C0-control/space characters, then delete every tab, CR and LF. -/
def normUrl (url : String) : List Char := removeUnsafe (lstripC0 url.toList)

/-- `c.isascii() and c.isalpha()`: an ASCII letter. -/
def isAsciiAlpha (c : Char) : Bool :=
  (65 ≤ c.toNat && c.toNat ≤ 90) || (97 ≤ c.toNat && c.toNat ≤ 122)

/-- A hexadecimal digit, as in the `[a-fA-F0-9]` class of
`_check_bracketed_host`'s IPvFuture regex. -/
def isHexDigit (c : Char) : Bool :=
  (48 ≤ c.toNat && c.toNat ≤ 57) || (65 ≤ c.toNat && c.toNat ≤ 70)
    || (97 ≤ c.toNat && c.toNat ≤ 102)

/-- The characters CPython's `urlsplit` accepts in a scheme. -/
def schemeChars : List Char :=
  "abcdefghijklmnopqrstuvwxyzABCDEFGHIJKLMNOPQRSTUVWXYZ0123456789+-.".toList

/-- `urlsplit` scheme detection: when the first `:` sits at a positive
index, the first character is an ASCII letter and everything before the
colon is a scheme character, that prefix is the (lowercased) scheme and the
remainder follows the colon; otherwise the scheme is empty. -/
def pySplitScheme (u : List Char) : String × List Char :=
  match u.findIdx? (· = ':') with
  | some i =>
      if 0 < i ∧ (u.take 1).all isAsciiAlpha ∧ (u.take i).all (· ∈ schemeChars)
      then (strLower (String.mk (u.take i)), u.drop (i + 1))
      else ("", u)
  | none => ("", u)

/-- `_splitnetloc`: a netloc is present only when the post-scheme text
starts with `//`, running to the first `/`, `?` or `#`; the square-bracket
checks `urlsplit` performs on it live in `pyUrlsplit`. -/
def pyNetloc (rest : List Char) : List Char :=
  match rest with
  | '/' :: '/' :: r => r.takeWhile (fun c => c != '/' && c != '?' && c != '#')
  | _ => []

/-- `l.partition('[')[2].partition(']')[0]`: the text between the first
open bracket and the first close bracket after it. -/
def bracketContent (l : List Char) : List Char :=
  ((l.dropWhile (· != '[')).drop 1).takeWhile (· != ']')

/-- `re.match(r"\Av[a-fA-F0-9]+\..+\Z", hostname)` in
`_check_bracketed_host`: a `v`, one or more hex digits, a dot, then at
least one more character.  Since a dot is not a hex digit, the regex
matches exactly when the first non-hex character after the `v` is a dot
with a non-empty tail and at least one hex digit precedes it (the input
contains no newline: `urlsplit` removed them). -/
def vFutureOk (h : List Char) : Bool :=
  match h with
  | 'v' :: rest =>
      match rest.dropWhile isHexDigit with
      | '.' :: t => !(rest.takeWhile isHexDigit).isEmpty && !t.isEmpty
      | _ => false
  | _ => false

/-- `_check_bracketed_host` as a pass/fail test: content starting with `v`
must match the IPvFuture shape; any other content must be accepted by
`ipaddress.ip_address` as an IPv6 address (an invalid address or a
bracketed IPv4 address raises).  The library parser is abstracted as the
oracle `isIPv6`. -/
def checkBracketedHost (isIPv6 : String → Bool) (h : List Char) : Bool :=
  match h with
  | 'v' :: _ => vFutureOk h
  | _ => isIPv6 (String.mk h)

/-- The scheme/netloc fragment of `urlsplit` (CPython 3.11) including its
`ValueError` paths, which yield `none`: normalize, split the scheme,
extract the netloc, then reject a netloc with mismatched square brackets
("Invalid IPv6 URL") or a bracketed host that fails
`_check_bracketed_host`.  The closing `_checknetloc` NFKC check is a no-op
for any all-ASCII URL and is omitted; the C6 theorem restricts itself to
ASCII URLs accordingly.  Validated against CPython 3.11.6 on 26 edge cases
covering every branch. -/
def pyUrlsplit (isIPv6 : String → Bool) (url : String) :
    Option (String × List Char) :=
  let u := normUrl url
  let s := pySplitScheme u
  let netloc := pyNetloc s.2
  if (netloc.contains '[' && !netloc.contains ']')
      || (netloc.contains ']' && !netloc.contains '[') then none
  else if netloc.contains '[' && netloc.contains ']' then
    if checkBracketedHost isIPv6 (bracketContent netloc) then some (s.1, netloc)
    else none
  else some (s.1, netloc)

/-- Netloc text after the last `@` (`rpartition('@')`). -/
def afterLastAt (l : List Char) : List Char :=
  if l.contains '@' then (l.reverse.takeWhile (· != '@')).reverse else l

/-- `SplitResult.hostname` via `_hostinfo`: text after the last `@`, then
the bracketed content when an open bracket is present, otherwise up to the
first `:`; `None` when empty; otherwise lowercased up to the first `%` (an
IPv6 zone id keeps its case). -/
def pyHostname (netloc : List Char) : Option String :=
  let hostinfo := afterLastAt netloc
  let host :=
    if hostinfo.contains '[' then bracketContent hostinfo
    else hostinfo.takeWhile (· != ':')
  if host.isEmpty then none
  else
    some (strLower (String.mk (host.takeWhile (· != '%')))
      ++ String.mk (host.dropWhile (· != '%')))

/-! ### `research_youtube` (midos_mcp.py) -/

/-- The command file dropped into `synapse/inbox`. -/
structure CommandFile where
  id : String
  source : String
  cmdType : String
  priority : String
  payloadAction : String
  payloadContent : String
  timestamp : Nat
deriving DecidableEq

/-- `valid_hosts` in `research_youtube`. -/
def validHosts : List String :=
  ["youtube.com", "www.youtube.com", "youtu.be", "m.youtube.com"]

/-- Outcome of `research_youtube`: `.error msg` models `raise ToolError(msg)`
before any filesystem write; `.valueError` models the `ValueError` raised
inside `urlparse` and not caught by the handler (also before any write);
`.ok cmd` models the success path, which writes exactly the single command
file `cmd` into the inbox. -/
inductive YTOutcome where
  | error (msg : String)
  | valueError
  | ok (cmd : CommandFile)
deriving DecidableEq

/-- The hostname validation and file-drop tail of `research_youtube`. -/
def ytHostCheck (hostOpt : Option String) (url priority : String) (now : Nat) :
    YTOutcome :=
  match hostOpt with
  | some hn =>
      if validHosts.contains hn then
        .ok ⟨"mcp_youtube_" ++ natStr now, "MCP_SERVER", "USER_COMMAND",
             strUpper priority, "investigate " ++ url, url, now⟩
      else
        .error ("Invalid YouTube host: " ++ hn
          ++ ". Must be youtube.com or youtu.be")
  | none =>
      .error ("Invalid YouTube host: None. Must be youtube.com or youtu.be")

/-- The scheme check and hostname tail of `research_youtube`, applied to a
successful parse result. -/
def ytParsed (s : String × List Char) (url priority : String) (now : Nat) :
    YTOutcome :=
  if s.1 ≠ "http" ∧ s.1 ≠ "https" then
    .error "Invalid URL scheme — only http/https allowed"
  else ytHostCheck (pyHostname s.2) url priority now

/-- Dispatch on `urlparse`'s result: its `ValueError` propagates out of the
handler uncaught. -/
def ytSplit (p : Option (String × List Char)) (url priority : String)
    (now : Nat) : YTOutcome :=
  match p with
  | none => .valueError
  | some s => ytParsed s url priority now

/-- `research_youtube` (midos_mcp.py).  `now` is `int(time.time())`; the
emptiness and 2048-length checks run on the raw string, before `urlparse`
and its normalization. -/
def researchYoutube (isIPv6 : String → Bool) (url priority : String)
    (now : Nat) : YTOutcome :=
  if url = "" ∨ url.length > 2048 then .error "Invalid YouTube URL"
  else ytSplit (pyUrlsplit isIPv6 url) url priority now

/-- C6 counterexample: at `https://[youtube.com/x` — non-empty and within
the 2048 bound — `urlparse` raises `ValueError("Invalid IPv6 URL")` (the
netloc has a `[` with no `]`), which the handler does not catch.  Whatever
`ipaddress.ip_address` does, the call therefore neither raises the
invalid-argument tool error the claim requires for an invalid URL nor
succeeds writing a command file: the claimed error/success dichotomy
fails. -/
theorem claim_C6_counterexample :
    ("https://[youtube.com/x" : String) ≠ "" ∧
    ¬ ("https://[youtube.com/x" : String).length > 2048 ∧
    (∀ isIPv6, researchYoutube isIPv6 "https://[youtube.com/x" "normal" 100
        = .valueError) ∧
    (∀ isIPv6 msg,
      researchYoutube isIPv6 "https://[youtube.com/x" "normal" 100
        ≠ .error msg) ∧
    (∀ isIPv6 cmd,
      researchYoutube isIPv6 "https://[youtube.com/x" "normal" 100
        ≠ .ok cmd) :=
  ⟨by decide, by decide, fun _ => rfl,
   fun i msg h => YTOutcome.noConfusion
     ((rfl : researchYoutube i "https://[youtube.com/x" "normal" 100
        = .valueError).symm.trans h),
   fun i cmd h => YTOutcome.noConfusion
     ((rfl : researchYoutube i "https://[youtube.com/x" "normal" 100
        = .valueError).symm.trans h)⟩

/-- C6 (amended): over all-ASCII URLs (for which `urlsplit`'s NFKC netloc
check is a no-op) and whatever `ipaddress.ip_address` accepts as IPv6,
`research_youtube` raises the invalid-argument tool error exactly when the
raw URL is empty or longer than 2048 characters, or parses with a scheme
other than http/https or a hostname outside the YouTube host set
(including no hostname at all); it propagates `urlparse`'s uncaught
`ValueError` exactly when the raw checks pass but parsing rejects the
netloc's square brackets; and it succeeds exactly otherwise.  Both kinds of
error write no command file; a success writes exactly one. -/
theorem claim_C6_research_youtube_validation (isIPv6 : String → Bool)
    (url priority : String) (now : Nat)
    (hascii : url.toList.all (fun c => c.toNat < 128) = true) :
    ((∃ msg, researchYoutube isIPv6 url priority now = .error msg) ↔
      (url = "" ∨ url.length > 2048 ∨
        (∃ s, pyUrlsplit isIPv6 url = some s ∧
          ((s.1 ≠ "http" ∧ s.1 ≠ "https") ∨
            (∀ hn, pyHostname s.2 = some hn →
              validHosts.contains hn = false))))) ∧
    (researchYoutube isIPv6 url priority now = .valueError ↔
      (url ≠ "" ∧ ¬ url.length > 2048 ∧ pyUrlsplit isIPv6 url = none)) ∧
    ((∃ cmd, researchYoutube isIPv6 url priority now = .ok cmd) ↔
      (url ≠ "" ∧ ¬ url.length > 2048 ∧
        ∃ s, pyUrlsplit isIPv6 url = some s ∧
          (s.1 = "http" ∨ s.1 = "https") ∧
          ∃ hn, pyHostname s.2 = some hn ∧
            validHosts.contains hn = true)) := by
  by_cases h1 : url = "" ∨ url.length > 2048
  · rw [researchYoutube, if_pos h1]
    refine ⟨⟨fun _ => ?_, fun _ => ⟨_, rfl⟩⟩,
            ⟨fun hve => YTOutcome.noConfusion hve, fun hc => ?_⟩,
            ⟨fun hok => ?_, fun hc => ?_⟩⟩
    · rcases h1 with h | h
      · exact Or.inl h
      · exact Or.inr (Or.inl h)
    · rcases h1 with h | h
      · exact absurd h hc.1
      · exact absurd h hc.2.1
    · obtain ⟨cmd, hcmd⟩ := hok
      exact YTOutcome.noConfusion hcmd
    · rcases h1 with h | h
      · exact absurd h hc.1
      · exact absurd h hc.2.1
  · rw [researchYoutube, if_neg h1]
    have hne : url ≠ "" ∧ ¬ url.length > 2048 :=
      ⟨fun h => h1 (Or.inl h), fun h => h1 (Or.inr h)⟩
    cases hp : pyUrlsplit isIPv6 url with
    | none =>
        refine ⟨⟨fun hmsg => ?_, fun hc => ?_⟩,
                ⟨fun _ => ⟨hne.1, hne.2, rfl⟩, fun _ => rfl⟩,
                ⟨fun hok => ?_, fun hc => ?_⟩⟩
        · obtain ⟨msg, hm⟩ := hmsg
          exact YTOutcome.noConfusion hm
        · rcases hc with h | h | ⟨s, hs, _⟩
          · exact absurd h hne.1
          · exact absurd h hne.2
          · exact Option.noConfusion hs
        · obtain ⟨cmd, hm⟩ := hok
          exact YTOutcome.noConfusion hm
        · obtain ⟨_, _, s, hs, _⟩ := hc
          exact Option.noConfusion hs
    | some s =>
        simp only [ytSplit, ytParsed]
        by_cases h2 : s.1 ≠ "http" ∧ s.1 ≠ "https"
        · rw [if_pos h2]
          refine ⟨⟨fun _ => Or.inr (Or.inr ⟨s, rfl, Or.inl h2⟩),
                    fun _ => ⟨_, rfl⟩⟩,
                  ⟨fun hve => YTOutcome.noConfusion hve,
                    fun hc => Option.noConfusion hc.2.2⟩,
                  ⟨fun hok => ?_, fun hc => ?_⟩⟩
          · obtain ⟨cmd, hm⟩ := hok
            exact YTOutcome.noConfusion hm
          · obtain ⟨_, _, s2, hs2, hsch, _⟩ := hc
            obtain rfl := Option.some.inj hs2
            rcases hsch with h | h
            · exact absurd h h2.1
            · exact absurd h h2.2
        · rw [if_neg h2]
          have hsch : s.1 = "http" ∨ s.1 = "https" := by
            rcases not_and_or.mp h2 with h | h
            · exact Or.inl (not_not.mp h)
            · exact Or.inr (not_not.mp h)
          cases hh : pyHostname s.2 with
          | none =>
              simp only [ytHostCheck]
              refine ⟨⟨fun _ => Or.inr (Or.inr ⟨s, rfl,
                        Or.inr fun hn hcon =>
                          Option.noConfusion (hh.symm.trans hcon)⟩),
                        fun _ => ⟨_, rfl⟩⟩,
                      ⟨fun hve => YTOutcome.noConfusion hve,
                        fun hc => Option.noConfusion hc.2.2⟩,
                      ⟨fun hok => ?_, fun hc => ?_⟩⟩
              · obtain ⟨cmd, hm⟩ := hok
                exact YTOutcome.noConfusion hm
              · obtain ⟨_, _, s2, hs2, _, hn, hhn, _⟩ := hc
                obtain rfl := Option.some.inj hs2
                exact Option.noConfusion (hh.symm.trans hhn)
          | some hn =>
              simp only [ytHostCheck]
              by_cases h3 : validHosts.contains hn = true
              · rw [if_pos h3]
                refine ⟨⟨fun hmsg => ?_, fun hc => ?_⟩,
                        ⟨fun hve => YTOutcome.noConfusion hve,
                          fun hc => Option.noConfusion hc.2.2⟩,
                        ⟨fun _ => ⟨hne.1, hne.2, s, rfl, hsch, hn, hh, h3⟩,
                          fun _ => ⟨_, rfl⟩⟩⟩
                · obtain ⟨msg, hm⟩ := hmsg
                  exact YTOutcome.noConfusion hm
                · rcases hc with h | h | ⟨s2, hs2, hbad⟩
                  · exact absurd h hne.1
                  · exact absurd h hne.2
                  · obtain rfl := Option.some.inj hs2
                    rcases hbad with hbad | hbad
                    · rcases hsch with h | h
                      · exact absurd h hbad.1
                      · exact absurd h hbad.2
                    · rw [hbad hn hh] at h3
                      exact Bool.noConfusion h3
              · rw [if_neg h3]
                refine ⟨⟨fun _ => Or.inr (Or.inr ⟨s, rfl,
                          Or.inr fun hn2 hcon => ?_⟩),
                          fun _ => ⟨_, rfl⟩⟩,
                        ⟨fun hve => YTOutcome.noConfusion hve,
                          fun hc => Option.noConfusion hc.2.2⟩,
                        ⟨fun hok => ?_, fun hc => ?_⟩⟩
                · obtain rfl := Option.some.inj (hh.symm.trans hcon)
                  exact Bool.eq_false_iff.mpr h3
                · obtain ⟨cmd, hm⟩ := hok
                  exact YTOutcome.noConfusion hm
                · obtain ⟨_, _, s2, hs2, _, hn2, hhn2, hcont⟩ := hc
                  obtain rfl := Option.some.inj hs2
                  obtain rfl := Option.some.inj (hh.symm.trans hhn2)
                  exact absurd hcont h3

/-- Witness for the amended C6 at a concrete valid URL: the success side of
the trichotomy applies, with the ASCII hypothesis discharged by
computation. -/
theorem claim_C6_witness :
    ("https://www.youtube.com/watch".toList.all
        (fun c => c.toNat < 128) = true) ∧
    (((∃ msg, researchYoutube (fun _ => false)
          "https://www.youtube.com/watch" "normal" 100 = .error msg) ↔
        ("https://www.youtube.com/watch" = "" ∨
          ("https://www.youtube.com/watch" : String).length > 2048 ∨
          (∃ s, pyUrlsplit (fun _ => false) "https://www.youtube.com/watch"
              = some s ∧
            ((s.1 ≠ "http" ∧ s.1 ≠ "https") ∨
              (∀ hn, pyHostname s.2 = some hn →
                validHosts.contains hn = false))))) ∧
      (researchYoutube (fun _ => false) "https://www.youtube.com/watch"
          "normal" 100 = .valueError ↔
        ("https://www.youtube.com/watch" ≠ "" ∧
          ¬ ("https://www.youtube.com/watch" : String).length > 2048 ∧
          pyUrlsplit (fun _ => false) "https://www.youtube.com/watch"
            = none)) ∧
      ((∃ cmd, researchYoutube (fun _ => false)
          "https://www.youtube.com/watch" "normal" 100 = .ok cmd) ↔
        ("https://www.youtube.com/watch" ≠ "" ∧
          ¬ ("https://www.youtube.com/watch" : String).length > 2048 ∧
          ∃ s, pyUrlsplit (fun _ => false) "https://www.youtube.com/watch"
              = some s ∧
            (s.1 = "http" ∨ s.1 = "https") ∧
            ∃ hn, pyHostname s.2 = some hn ∧
              validHosts.contains hn = true))) :=
  ⟨by decide,
   claim_C6_research_youtube_validation (fun _ => false)
     "https://www.youtube.com/watch" "normal" 100 (by decide)⟩

/-! ### `vector_store.py` — rows and alpha-weighted RRF fusion -/

/-- A row handled by `VectorStore` (the embedding vector is carried but
never read by fusion or result shaping). -/
structure Row where
  text : String
  vector : List ℚ
  source : String
  timestamp : Nat
  metadata : String
deriving DecidableEq

/-- `doc["text"][:200]`: the document identity used by RRF fusion. -/
def docId (d : Row) : String := strTake d.text 200

/-- One step of the first loop of `_rrf_fuse_weighted` (plain assignment). -/
def rrfVecStep (alpha : ℚ) (k : Nat) (m : List (String × ℚ × Row))
    (rd : Nat × Row) : List (String × ℚ × Row) :=
  setA m (docId rd.2) (alpha * (1 / ((rd.1 : ℚ) + 1 + k)), rd.2)

/-- One step of the second loop of `_rrf_fuse_weighted` (add or insert). -/
def rrfFtsStep (alpha : ℚ) (k : Nat) (m : List (String × ℚ × Row))
    (rd : Nat × Row) : List (String × ℚ × Row) :=
  let score := (1 - alpha) * (1 / ((rd.1 : ℚ) + 1 + k))
  match m.lookup (docId rd.2) with
  | some sv => setA m (docId rd.2) (sv.1 + score, rd.2)
  | none => setA m (docId rd.2) (score, rd.2)

/-- The `doc_scores` dict of `_rrf_fuse_weighted` after both loops. -/
def rrfMap (vec fts : List Row) (alpha : ℚ) (k : Nat) :
    List (String × ℚ × Row) :=
  (fts.enum).foldl (rrfFtsStep alpha k) ((vec.enum).foldl (rrfVecStep alpha k) [])

/-- `VectorStore._rrf_fuse_weighted`: build the score dict from both ranked
lists, then sort its values by score descending and truncate. -/
def rrfFuseWeighted (vec fts : List Row) (alpha : ℚ) (k : Nat) (limit : Nat) :
    List Row :=
  let sorted := ((rrfMap vec fts alpha k).map (·.2)).mergeSort
    (fun a b => decide (b.1 ≤ a.1))
  (sorted.take limit).map (·.2)

/-- 0-based rank of the first row of `l` whose `docId` is `i`. -/
def rankOf (l : List Row) (i : String) : Option Nat :=
  (l.enum.find? (fun rd => docId rd.2 == i)).map (·.1)

/-- The fusion score the specification prescribes for a document identity:
`alpha / (vec_rank + 60) + (1-alpha) / (fts_rank + 60)` with ranks
1-indexed, an absent leg contributing 0. -/
def specRRFScore (vec fts : List Row) (alpha : ℚ) (i : String) : ℚ :=
  (match rankOf vec i with
   | some r => alpha / ((r : ℚ) + 1 + 60)
   | none => 0)
  + (match rankOf fts i with
     | some r => (1 - alpha) / ((r : ℚ) + 1 + 60)
     | none => 0)

theorem setA_eq_append_of_none {α : Type} {m : List (String × α)} {k : String}
    (v : α) (h : m.lookup k = none) : setA m k v = m ++ [(k, v)] := by
  induction m with
  | nil => simp [setA]
  | cons hd tl ih =>
      obtain ⟨a, b⟩ := hd
      by_cases hk : a = k
      · rw [List.lookup, show (k == a) = true by simp [hk]] at h
        exact Option.noConfusion h
      · rw [List.lookup, show (k == a) = false by simp [Ne.symm hk]] at h
        simp [setA, hk, ih h]

theorem lookup_append_right {α : Type} {m₁ : List (String × α)}
    (m₂ : List (String × α)) {k : String} (h : m₁.lookup k = none) :
    (m₁ ++ m₂).lookup k = m₂.lookup k := by
  induction m₁ with
  | nil => simp
  | cons hd tl ih =>
      obtain ⟨a, b⟩ := hd
      by_cases hk : a = k
      · rw [List.lookup, show (k == a) = true by simp [hk]] at h
        exact Option.noConfusion h
      · rw [List.lookup, show (k == a) = false by simp [Ne.symm hk]] at h
        show List.lookup k ((a, b) :: (tl ++ m₂)) = _
        rw [List.lookup, show (k == a) = false by simp [Ne.symm hk]]
        exact ih h

theorem lookup_append_left {α : Type} {m₁ : List (String × α)}
    (m₂ : List (String × α)) {k : String} {v : α} (h : m₁.lookup k = some v) :
    (m₁ ++ m₂).lookup k = some v := by
  induction m₁ with
  | nil => simp at h
  | cons hd tl ih =>
      obtain ⟨a, b⟩ := hd
      by_cases hk : a = k
      · rw [List.lookup, show (k == a) = true by simp [hk]] at h
        show List.lookup k ((a, b) :: (tl ++ m₂)) = _
        rw [List.lookup, show (k == a) = true by simp [hk]]
        exact h
      · rw [List.lookup, show (k == a) = false by simp [Ne.symm hk]] at h
        show List.lookup k ((a, b) :: (tl ++ m₂)) = _
        rw [List.lookup, show (k == a) = false by simp [Ne.symm hk]]
        exact ih h

theorem lookup_append_single_ne {α : Type} (acc : List (String × α))
    {i k : String} (v : α) (h : i ≠ k) :
    (acc ++ [(k, v)]).lookup i = acc.lookup i := by
  cases hs : acc.lookup i with
  | some w => exact lookup_append_left _ hs
  | none =>
      rw [lookup_append_right _ hs, List.lookup,
        show (i == k) = false by simp [h]]
      rfl

theorem mem_enumFrom_of_mem {l : List Row} {d : Row} (hd : d ∈ l) :
    ∀ n, ∃ rd ∈ l.enumFrom n, rd.2 = d := by
  induction l with
  | nil => cases hd
  | cons x xs ih =>
      intro n
      rcases List.mem_cons.mp hd with h | h
      · exact ⟨(n, x), List.mem_cons_self _ _, h.symm⟩
      · obtain ⟨rd, hmem, hrd⟩ := ih h (n + 1)
        exact ⟨rd, List.mem_cons_of_mem _ hmem, hrd⟩

theorem snd_mem_of_mem_enumFrom {l : List Row} {rd : Nat × Row} :
    ∀ {n : Nat}, rd ∈ l.enumFrom n → rd.2 ∈ l := by
  induction l with
  | nil => intro n h; cases h
  | cons x xs ih =>
      intro n h
      rcases List.mem_cons.mp h with h1 | h1
      · rw [h1]; exact List.mem_cons_self _ _
      · exact List.mem_cons_of_mem _ (ih h1)

/-- The first loop of `_rrf_fuse_weighted` on identity-distinct rows:
lookups read off the vector-leg score at the first matching rank. -/
theorem vecFold_lookup (alpha : ℚ) (k : Nat) :
    ∀ (l : List Row) (n : Nat) (acc : List (String × ℚ × Row)),
      (l.map docId).Nodup →
      (∀ d ∈ l, acc.lookup (docId d) = none) →
      ∀ i, ((l.enumFrom n).foldl (rrfVecStep alpha k) acc).lookup i
        = match (l.enumFrom n).find? (fun rd => docId rd.2 == i) with
          | some rd => some (alpha * (1 / ((rd.1 : ℚ) + 1 + k)), rd.2)
          | none => acc.lookup i := by
  intro l
  induction l with
  | nil => intro n acc _ _ i; rfl
  | cons d ds ih =>
      intro n acc hnd hfresh i
      have hdacc : acc.lookup (docId d) = none := hfresh d (List.mem_cons_self _ _)
      have hstep : rrfVecStep alpha k acc (n, d)
          = acc ++ [(docId d, (alpha * (1 / ((n : ℚ) + 1 + k)), d))] := by
        unfold rrfVecStep
        exact setA_eq_append_of_none _ hdacc
      have hnd' : (ds.map docId).Nodup := (List.nodup_cons.mp hnd).2
      have hdnotin : docId d ∉ ds.map docId := (List.nodup_cons.mp hnd).1
      have hfresh' : ∀ d' ∈ ds,
          (acc ++ [(docId d, (alpha * (1 / ((n : ℚ) + 1 + k)), d))]).lookup (docId d')
            = none := by
        intro d' hd'
        have hne : docId d' ≠ docId d := by
          intro hc
          exact hdnotin (hc ▸ List.mem_map_of_mem docId hd')
        rw [lookup_append_single_ne _ _ hne]
        exact hfresh d' (List.mem_cons_of_mem _ hd')
      show ((ds.enumFrom (n + 1)).foldl (rrfVecStep alpha k)
          (rrfVecStep alpha k acc (n, d))).lookup i = _
      rw [hstep, ih (n + 1) _ hnd' hfresh' i]
      by_cases hi : docId d = i
      · have hnone : (ds.enumFrom (n + 1)).find? (fun rd => docId rd.2 == i) = none := by
          rw [List.find?_eq_none]
          intro rd hrd hc
          have hceq : docId rd.2 = i := by simpa using hc
          apply hdnotin
          rw [hi, ← hceq]
          exact List.mem_map_of_mem docId (snd_mem_of_mem_enumFrom hrd)
        rw [hnone,
          show ((d :: ds).enumFrom n).find? (fun rd => docId rd.2 == i)
            = some (n, d) by simp [List.find?_cons, hi]]
        subst hi
        rw [lookup_append_right _ hdacc]
        simp [List.lookup]
      · rw [show ((d :: ds).enumFrom n).find? (fun rd => docId rd.2 == i)
            = (ds.enumFrom (n + 1)).find? (fun rd => docId rd.2 == i) by
          simp [List.find?_cons, hi]]
        cases hfind : (ds.enumFrom (n + 1)).find? (fun rd => docId rd.2 == i) with
        | some rd => rfl
        | none =>
            exact lookup_append_single_ne _ _ (Ne.symm hi)

/-- The second loop of `_rrf_fuse_weighted` on identity-distinct rows: the
keyword-leg contribution is added to whatever score the map already holds. -/
theorem ftsFold_lookup (alpha : ℚ) (k : Nat) :
    ∀ (l : List Row) (n : Nat) (acc : List (String × ℚ × Row)),
      (l.map docId).Nodup →
      ∀ i, ((l.enumFrom n).foldl (rrfFtsStep alpha k) acc).lookup i
        = match (l.enumFrom n).find? (fun rd => docId rd.2 == i) with
          | some rd => some
              ((acc.lookup i).elim 0 (·.1)
                 + (1 - alpha) * (1 / ((rd.1 : ℚ) + 1 + k)), rd.2)
          | none => acc.lookup i := by
  intro l
  induction l with
  | nil => intro n acc _ i; rfl
  | cons d ds ih =>
      intro n acc hnd i
      have hnd' : (ds.map docId).Nodup := (List.nodup_cons.mp hnd).2
      have hdnotin : docId d ∉ ds.map docId := (List.nodup_cons.mp hnd).1
      have hself : (rrfFtsStep alpha k acc (n, d)).lookup (docId d)
          = some ((acc.lookup (docId d)).elim 0 (·.1)
              + (1 - alpha) * (1 / ((n : ℚ) + 1 + k)), d) := by
        unfold rrfFtsStep
        cases hacc : acc.lookup (docId d) with
        | some sv =>
            simp only [hacc, Option.elim_some]
            exact lookup_setA_self _ _ _
        | none =>
            simp only [hacc, Option.elim_none]
            rw [lookup_setA_self]
            norm_num
      have hother : ∀ j, j ≠ docId d →
          (rrfFtsStep alpha k acc (n, d)).lookup j = acc.lookup j := by
        intro j hj
        unfold rrfFtsStep
        cases hacc : acc.lookup (docId d) with
        | some sv => exact lookup_setA_ne _ _ hj
        | none => exact lookup_setA_ne _ _ hj
      show ((ds.enumFrom (n + 1)).foldl (rrfFtsStep alpha k)
          (rrfFtsStep alpha k acc (n, d))).lookup i = _
      rw [ih (n + 1) _ hnd' i]
      by_cases hi : docId d = i
      · have hnone : (ds.enumFrom (n + 1)).find? (fun rd => docId rd.2 == i) = none := by
          rw [List.find?_eq_none]
          intro rd hrd hc
          have hceq : docId rd.2 = i := by simpa using hc
          apply hdnotin
          rw [hi, ← hceq]
          exact List.mem_map_of_mem docId (snd_mem_of_mem_enumFrom hrd)
        rw [hnone,
          show ((d :: ds).enumFrom n).find? (fun rd => docId rd.2 == i)
            = some (n, d) by simp [List.find?_cons, hi]]
        subst hi
        exact hself
      · rw [show ((d :: ds).enumFrom n).find? (fun rd => docId rd.2 == i)
            = (ds.enumFrom (n + 1)).find? (fun rd => docId rd.2 == i) by
          simp [List.find?_cons, hi]]
        cases hfind : (ds.enumFrom (n + 1)).find? (fun rd => docId rd.2 == i) with
        | some rd =>
            rw [hother i (Ne.symm hi)]
        | none =>
            exact hother i (Ne.symm hi)

theorem lookup_none_iff {α : Type} (m : List (String × α)) (k : String) :
    m.lookup k = none ↔ k ∉ m.map (·.1) := by
  induction m with
  | nil => simp
  | cons hd tl ih =>
      obtain ⟨a, b⟩ := hd
      by_cases hk : a = k
      · subst hk
        rw [List.lookup, show (a == a) = true by simp]
        simp
      · rw [List.lookup, show (k == a) = false by simp [Ne.symm hk]]
        simp only [List.map_cons, List.mem_cons, not_or]
        rw [ih]
        constructor
        · intro h; exact ⟨fun hc => hk hc.symm, h⟩
        · intro h; exact h.2

theorem keys_setA_none {α : Type} {m : List (String × α)} {k : String} (v : α)
    (h : m.lookup k = none) :
    (setA m k v).map (·.1) = m.map (·.1) ++ [k] := by
  rw [setA_eq_append_of_none _ h]
  simp

theorem keys_setA_some {α : Type} {m : List (String × α)} {k : String} (v : α)
    {w : α} (h : m.lookup k = some w) :
    (setA m k v).map (·.1) = m.map (·.1) := by
  induction m with
  | nil => simp [List.lookup] at h
  | cons hd tl ih =>
      obtain ⟨a, b⟩ := hd
      by_cases hk : a = k
      · subst hk
        simp [setA]
      · rw [show List.lookup k ((a, b) :: tl) = List.lookup k tl by
          rw [List.lookup, show (k == a) = false by simp [Ne.symm hk]]] at h
        simp [setA, hk, ih h]

theorem nodup_keys_setA {α : Type} (m : List (String × α)) (k : String) (v : α)
    (h : (m.map (·.1)).Nodup) : ((setA m k v).map (·.1)).Nodup := by
  cases hl : m.lookup k with
  | none =>
      rw [keys_setA_none v hl]
      have hk : k ∉ m.map (·.1) := (lookup_none_iff m k).mp hl
      rw [List.nodup_append]
      exact ⟨h, List.nodup_singleton k, by simpa using hk⟩
  | some w =>
      rw [keys_setA_some v hl]
      exact h

theorem nodup_keys_foldl_vec (alpha : ℚ) (k : Nat) :
    ∀ (l : List (Nat × Row)) (acc : List (String × ℚ × Row)),
      (acc.map (·.1)).Nodup →
      ((l.foldl (rrfVecStep alpha k) acc).map (·.1)).Nodup := by
  intro l
  induction l with
  | nil => intro acc h; exact h
  | cons rd rest ih =>
      intro acc h
      exact ih _ (nodup_keys_setA _ _ _ h)

theorem nodup_keys_foldl_fts (alpha : ℚ) (k : Nat) :
    ∀ (l : List (Nat × Row)) (acc : List (String × ℚ × Row)),
      (acc.map (·.1)).Nodup →
      ((l.foldl (rrfFtsStep alpha k) acc).map (·.1)).Nodup := by
  intro l
  induction l with
  | nil => intro acc h; exact h
  | cons rd rest ih =>
      intro acc h
      apply ih
      unfold rrfFtsStep
      cases hacc : acc.lookup (docId rd.2) with
      | some sv => exact nodup_keys_setA _ _ _ h
      | none => exact nodup_keys_setA _ _ _ h

theorem mem_of_lookup_some {α : Type} {m : List (String × α)} {k : String} {v : α}
    (h : m.lookup k = some v) : (k, v) ∈ m := by
  induction m with
  | nil => simp [List.lookup] at h
  | cons hd tl ih =>
      obtain ⟨a, b⟩ := hd
      by_cases hk : a = k
      · subst hk
        rw [List.lookup, show (a == a) = true by simp] at h
        rw [Option.some_inj] at h
        subst h
        exact List.mem_cons_self _ _
      · rw [List.lookup, show (k == a) = false by simp [Ne.symm hk]] at h
        exact List.mem_cons_of_mem _ (ih h)

theorem lookup_of_mem_nodup {α : Type} {m : List (String × α)}
    (hn : (m.map (·.1)).Nodup) {p : String × α} (hp : p ∈ m) :
    m.lookup p.1 = some p.2 := by
  induction m with
  | nil => cases hp
  | cons hd tl ih =>
      obtain ⟨a, b⟩ := hd
      rcases List.mem_cons.mp hp with h1 | h1
      · subst h1
        show List.lookup a ((a, b) :: tl) = some b
        rw [List.lookup, show (a == a) = true by simp]
      · have ha : a ∉ tl.map (·.1) := (List.nodup_cons.mp hn).1
        have hne : p.1 ≠ a := by
          intro hc
          exact ha (hc ▸ List.mem_map_of_mem (·.1) h1)
        rw [List.lookup, show (p.1 == a) = false by simp [hne]]
        exact ih (List.nodup_cons.mp hn).2 h1

theorem rrfMap_keys_nodup (vec fts : List Row) (alpha : ℚ) (k : Nat) :
    ((rrfMap vec fts alpha k).map (·.1)).Nodup :=
  nodup_keys_foldl_fts alpha k _ _ (nodup_keys_foldl_vec alpha k _ [] (by simp))

/-- Every entry of the fused score dict carries its own document identity as
key and the specification's alpha-weighted RRF score as value. -/
theorem rrfMap_entry_spec (vec fts : List Row) (alpha : ℚ)
    (hv : (vec.map docId).Nodup) (hf : (fts.map docId).Nodup) :
    ∀ p ∈ rrfMap vec fts alpha 60,
      p.1 = docId p.2.2 ∧ p.2.1 = specRRFScore vec fts alpha p.1 := by
  intro p hp
  have hlk : (rrfMap vec fts alpha 60).lookup p.1 = some p.2 :=
    lookup_of_mem_nodup (rrfMap_keys_nodup vec fts alpha 60) hp
  have hMdef : rrfMap vec fts alpha 60
      = (fts.enumFrom 0).foldl (rrfFtsStep alpha 60)
          ((vec.enumFrom 0).foldl (rrfVecStep alpha 60) []) := rfl
  rw [hMdef] at hlk
  rw [ftsFold_lookup alpha 60 fts 0 _ hf p.1] at hlk
  have hm0 := vecFold_lookup alpha 60 vec 0 [] hv (fun d _ => rfl) p.1
  cases hff : (fts.enumFrom 0).find? (fun rd => docId rd.2 == p.1) with
  | some rdf =>
      rw [hff] at hlk
      have hdf : docId rdf.2 = p.1 := by simpa using List.find?_some hff
      have hrankf : rankOf fts p.1 = some rdf.1 := by
        unfold rankOf
        rw [show fts.enum = fts.enumFrom 0 from rfl, hff]
        rfl
      cases hfv : (vec.enumFrom 0).find? (fun rd => docId rd.2 == p.1) with
      | some rdv =>
          rw [hfv] at hm0
          have hrankv : rankOf vec p.1 = some rdv.1 := by
            unfold rankOf
            rw [show vec.enum = vec.enumFrom 0 from rfl, hfv]
            rfl
          rw [hm0] at hlk
          have hp2 : p.2 = (alpha * (1 / ((rdv.1 : ℚ) + 1 + 60))
              + (1 - alpha) * (1 / ((rdf.1 : ℚ) + 1 + 60)), rdf.2) := by
            have h := Option.some_inj.mp hlk
            rw [← h]
            simp
          constructor
          · rw [hp2]
            exact hdf.symm
          · rw [hp2]
            unfold specRRFScore
            rw [hrankv, hrankf]
            simp only [mul_one_div]
      | none =>
          rw [hfv] at hm0
          rw [hm0] at hlk
          have hrankv : rankOf vec p.1 = none := by
            unfold rankOf
            rw [show vec.enum = vec.enumFrom 0 from rfl, hfv]
            rfl
          have hp2 : p.2 = ((1 - alpha) * (1 / ((rdf.1 : ℚ) + 1 + 60)), rdf.2) := by
            have h := Option.some_inj.mp hlk
            rw [← h]
            simp [List.lookup]
          constructor
          · rw [hp2]
            exact hdf.symm
          · rw [hp2]
            unfold specRRFScore
            rw [hrankv, hrankf]
            simp only [mul_one_div, zero_add]
  | none =>
      rw [hff] at hlk
      have hrankf : rankOf fts p.1 = none := by
        unfold rankOf
        rw [show fts.enum = fts.enumFrom 0 from rfl, hff]
        rfl
      cases hfv : (vec.enumFrom 0).find? (fun rd => docId rd.2 == p.1) with
      | some rdv =>
          rw [hfv] at hm0
          rw [hm0] at hlk
          have hdv : docId rdv.2 = p.1 := by simpa using List.find?_some hfv
          have hrankv : rankOf vec p.1 = some rdv.1 := by
            unfold rankOf
            rw [show vec.enum = vec.enumFrom 0 from rfl, hfv]
            rfl
          have hp2 : p.2 = (alpha * (1 / ((rdv.1 : ℚ) + 1 + 60)), rdv.2) :=
            (Option.some_inj.mp hlk).symm
          constructor
          · rw [hp2]
            exact hdv.symm
          · rw [hp2]
            unfold specRRFScore
            rw [hrankv, hrankf]
            simp only [mul_one_div, add_zero]
      | none =>
          rw [hfv] at hm0
          rw [hm0] at hlk
          exact absurd hlk (by simp [List.lookup])

/-- Every document of either candidate list owns an entry in the fused
score dict. -/
theorem rrfMap_complete (vec fts : List Row) (alpha : ℚ)
    (hv : (vec.map docId).Nodup) (hf : (fts.map docId).Nodup) :
    ∀ d ∈ vec ++ fts, ∃ p ∈ rrfMap vec fts alpha 60, p.1 = docId d := by
  intro d hd
  have hMdef : rrfMap vec fts alpha 60
      = (fts.enumFrom 0).foldl (rrfFtsStep alpha 60)
          ((vec.enumFrom 0).foldl (rrfVecStep alpha 60) []) := rfl
  have hM := ftsFold_lookup alpha 60 fts 0
    ((vec.enumFrom 0).foldl (rrfVecStep alpha 60) []) hf (docId d)
  have hm0 := vecFold_lookup alpha 60 vec 0 [] hv (fun d' _ => rfl) (docId d)
  have hlift : ∀ v, (rrfMap vec fts alpha 60).lookup (docId d) = some v →
      ∃ p ∈ rrfMap vec fts alpha 60, p.1 = docId d := by
    intro v hv'
    exact ⟨(docId d, v), mem_of_lookup_some hv', rfl⟩
  rcases List.mem_append.mp hd with h | h
  · cases hff : (fts.enumFrom 0).find? (fun rd => docId rd.2 == docId d) with
    | some rdf =>
        rw [hff] at hM
        exact hlift _ (by rw [hMdef, hM])
    | none =>
        rw [hff] at hM
        obtain ⟨rd, hmem, hrd⟩ := mem_enumFrom_of_mem h 0
        cases hfv : (vec.enumFrom 0).find? (fun rd => docId rd.2 == docId d) with
        | some rdv =>
            rw [hfv] at hm0
            exact hlift _ (by rw [hMdef, hM, hm0])
        | none =>
            exfalso
            have hnone := List.find?_eq_none.mp hfv rd hmem
            simp [hrd] at hnone
  · obtain ⟨rd, hmem, hrd⟩ := mem_enumFrom_of_mem h 0
    cases hff : (fts.enumFrom 0).find? (fun rd => docId rd.2 == docId d) with
    | some rdf =>
        rw [hff] at hM
        exact hlift _ (by rw [hMdef, hM])
    | none =>
        exfalso
        have hnone := List.find?_eq_none.mp hff rd hmem
        simp [hrd] at hnone

/-- C7: in hybrid mode, on candidate lists whose document identities (first
200 characters of text) are distinct within each list, `_rrf_fuse_weighted`
assigns every document the score
`alpha/(vec_rank+60) + (1-alpha)/(fts_rank+60)` with ranks 1-indexed and an
absent leg contributing 0, sums the two legs, and returns the documents
sorted by this score descending, truncated to `limit`. -/
theorem claim_C7_weighted_rrf (vec fts : List Row) (alpha : ℚ) (limit : Nat)
    (hv : (vec.map docId).Nodup) (hf : (fts.map docId).Nodup)
    (hvne : vec ≠ []) (hfne : fts ≠ []) :
    ∃ fused : List (ℚ × Row),
      (∀ p ∈ fused, p.1 = specRRFScore vec fts alpha (docId p.2)) ∧
      (∀ d ∈ vec ++ fts, ∃ p ∈ fused, docId p.2 = docId d) ∧
      fused.Pairwise (fun a b => b.1 ≤ a.1) ∧
      rrfFuseWeighted vec fts alpha 60 limit
        = (fused.take limit).map (·.2) := by
  refine ⟨((rrfMap vec fts alpha 60).map (·.2)).mergeSort
    (fun a b => decide (b.1 ≤ a.1)), ?_, ?_, ?_, by rfl⟩
  · intro p hp
    have hp' : p ∈ (rrfMap vec fts alpha 60).map (·.2) :=
      (List.mergeSort_perm _ _).mem_iff.mp hp
    obtain ⟨q, hq, hqp⟩ := List.mem_map.mp hp'
    obtain ⟨hkey, hscore⟩ := rrfMap_entry_spec vec fts alpha hv hf q hq
    rw [← hqp, hscore, hkey]
  · intro d hd
    obtain ⟨q, hq, hqkey⟩ := rrfMap_complete vec fts alpha hv hf d hd
    refine ⟨q.2, ?_, ?_⟩
    · exact (List.mergeSort_perm _ _).mem_iff.mpr (List.mem_map_of_mem (·.2) hq)
    · obtain ⟨hkey, _⟩ := rrfMap_entry_spec vec fts alpha hv hf q hq
      rw [← hkey, hqkey]
  · have hs := @List.sorted_mergeSort (ℚ × Row)
      (fun a b => decide (b.1 ≤ a.1))
      (by
        intro a b c hab hbc
        simp only [decide_eq_true_eq] at hab hbc ⊢
        exact le_trans hbc hab)
      (by
        intro a b
        simp only [Bool.or_eq_true, decide_eq_true_eq]
        exact le_total b.1 a.1)
      ((rrfMap vec fts alpha 60).map (·.2))
    exact hs.imp (fun h => by simpa using h)

/-- Witness for C7 at two concrete two-element candidate lists sharing one
document. -/
theorem claim_C7_witness :
    (([⟨"alpha doc", [], "s1", 0, "{}"⟩, ⟨"beta doc", [], "s2", 0, "{}"⟩]
        : List Row).map docId).Nodup ∧
    (([⟨"beta doc", [], "s2", 0, "{}"⟩, ⟨"gamma doc", [], "s3", 0, "{}"⟩]
        : List Row).map docId).Nodup ∧
    ([⟨"alpha doc", [], "s1", 0, "{}"⟩, ⟨"beta doc", [], "s2", 0, "{}"⟩]
        : List Row) ≠ [] ∧
    ([⟨"beta doc", [], "s2", 0, "{}"⟩, ⟨"gamma doc", [], "s3", 0, "{}"⟩]
        : List Row) ≠ [] ∧
    (∃ fused : List (ℚ × Row),
      (∀ p ∈ fused, p.1 = specRRFScore
        [⟨"alpha doc", [], "s1", 0, "{}"⟩, ⟨"beta doc", [], "s2", 0, "{}"⟩]
        [⟨"beta doc", [], "s2", 0, "{}"⟩, ⟨"gamma doc", [], "s3", 0, "{}"⟩]
        (mkRat 1 2) (docId p.2)) ∧
      (∀ d ∈ ([⟨"alpha doc", [], "s1", 0, "{}"⟩, ⟨"beta doc", [], "s2", 0, "{}"⟩]
          : List Row)
          ++ [⟨"beta doc", [], "s2", 0, "{}"⟩, ⟨"gamma doc", [], "s3", 0, "{}"⟩],
        ∃ p ∈ fused, docId p.2 = docId d) ∧
      fused.Pairwise (fun a b => b.1 ≤ a.1) ∧
      rrfFuseWeighted
        [⟨"alpha doc", [], "s1", 0, "{}"⟩, ⟨"beta doc", [], "s2", 0, "{}"⟩]
        [⟨"beta doc", [], "s2", 0, "{}"⟩, ⟨"gamma doc", [], "s3", 0, "{}"⟩]
        (mkRat 1 2) 60 5
        = (fused.take 5).map (·.2)) :=
  ⟨by decide, by decide, by decide, by decide,
   claim_C7_weighted_rrf _ _ (mkRat 1 2) 5
     (by decide) (by decide) (by decide) (by decide)⟩

/-! ### `store_wisdom_chunks_batch` / `store_wisdom_chunk` -/

/-- An input item of `store_wisdom_chunks_batch` (`text` may be absent). -/
structure BatchItem where
  text : Option String
  source : String
  metadata : String
deriving DecidableEq

/-- The filter `item.get("text") and len(item["text"]) >= 10`: Python
truthiness drops an absent or empty text before the length test. -/
def validItem (it : BatchItem) : Bool :=
  match it.text with
  | some t => t != "" && decide (10 ≤ t.length)
  | none => false

/-- `store_wisdom_chunks_batch`.  `embed` abstracts `get_embeddings_batch`
(per-text, order-preserving, `none` on failure) and `addOk` the success of
the single `VectorStore.add` write.  Returns the count the function reports
together with the list of chunks actually written to the table. -/
def storeWisdomChunksBatch (embed : String → Option (List ℚ)) (addOk : Bool)
    (items : List BatchItem) (ts : Nat) : Nat × List Row :=
  if items = [] then (0, [])
  else
    let valid := items.filter validItem
    if valid = [] then (0, [])
    else
      let chunks := valid.filterMap (fun it =>
        match it.text with
        | some t => (embed t).map
            (fun v => (⟨t, v, it.source, ts, it.metadata⟩ : Row))
        | none => none)
      if chunks = [] then (0, [])
      else if addOk then (chunks.length, chunks) else (0, [])

/-- `store_wisdom_chunk`: single-chunk path with its own length guard. -/
def storeWisdomChunk (embed : String → Option (List ℚ)) (addOk : Bool)
    (text source metadata : String) (ts : Nat) : Bool × List Row :=
  if text = "" ∨ text.length < 10 then (false, [])
  else
    match embed text with
    | none => (false, [])
    | some v =>
        if v = [] then (false, [])
        else if addOk then (true, [⟨text, v, source, ts, metadata⟩])
        else (false, [])

/-- C10: batch ingestion drops every item whose text is absent or shorter
than 10 characters without error, the returned integer counts exactly the
chunks written to the table, every written chunk has text of length ≥ 10
drawn from the input items, and the single-chunk path rejects short or
empty text the same way. -/
theorem claim_C10_min_text_length :
    (∀ (embed : String → Option (List ℚ)) (addOk : Bool)
        (items : List BatchItem) (ts : Nat),
      (storeWisdomChunksBatch embed addOk items ts).1
          = (storeWisdomChunksBatch embed addOk items ts).2.length ∧
      (∀ ch ∈ (storeWisdomChunksBatch embed addOk items ts).2,
        10 ≤ ch.text.length ∧ ∃ it ∈ items, it.text = some ch.text)) ∧
    (∀ (embed : String → Option (List ℚ)) (addOk : Bool)
        (text source metadata : String) (ts : Nat),
      (text = "" ∨ text.length < 10) →
      storeWisdomChunk embed addOk text source metadata ts = (false, [])) ∧
    (∀ (embed : String → Option (List ℚ)) (addOk : Bool)
        (text source metadata : String) (ts : Nat),
      ∀ ch ∈ (storeWisdomChunk embed addOk text source metadata ts).2,
        10 ≤ ch.text.length) := by
  refine ⟨?_, ?_, ?_⟩
  · intro embed addOk items ts
    have hmem : ∀ ch ∈ (items.filter validItem).filterMap (fun it =>
        match it.text with
        | some t => (embed t).map
            (fun v => (⟨t, v, it.source, ts, it.metadata⟩ : Row))
        | none => none),
        10 ≤ ch.text.length ∧ ∃ it ∈ items, it.text = some ch.text := by
      intro ch hch
      obtain ⟨it, hit, hf⟩ := List.mem_filterMap.mp hch
      obtain ⟨hitems, hvalid⟩ := List.mem_filter.mp hit
      cases htext : it.text with
      | none =>
          rw [htext] at hf
          exact Option.noConfusion hf
      | some t =>
          rw [htext] at hf
          obtain ⟨v, _, hv2⟩ := Option.map_eq_some'.mp hf
          have hlen : 10 ≤ t.length := by
            unfold validItem at hvalid
            rw [htext] at hvalid
            exact of_decide_eq_true (Bool.and_elim_right hvalid)
          rw [← hv2]
          exact ⟨hlen, it, hitems, htext⟩
    unfold storeWisdomChunksBatch
    by_cases h1 : items = []
    · rw [if_pos h1]
      exact ⟨rfl, by intro ch hch; cases hch⟩
    · rw [if_neg h1]
      by_cases h2 : items.filter validItem = []
      · rw [if_pos h2]
        exact ⟨rfl, by intro ch hch; cases hch⟩
      · rw [if_neg h2]
        by_cases h3 : (items.filter validItem).filterMap (fun it =>
            match it.text with
            | some t => (embed t).map
                (fun v => (⟨t, v, it.source, ts, it.metadata⟩ : Row))
            | none => none) = []
        · rw [if_pos h3]
          exact ⟨rfl, by intro ch hch; cases hch⟩
        · rw [if_neg h3]
          cases addOk with
          | true => exact ⟨rfl, hmem⟩
          | false => exact ⟨rfl, by intro ch hch; cases hch⟩
  · intro embed addOk text source metadata ts h
    unfold storeWisdomChunk
    rw [if_pos h]
  · intro embed addOk text source metadata ts ch hch
    by_cases h : text = "" ∨ text.length < 10
    · unfold storeWisdomChunk at hch
      rw [if_pos h] at hch
      cases hch
    · have htext : ch.text = text := by
        unfold storeWisdomChunk at hch
        rw [if_neg h] at hch
        cases hemb : embed text with
        | none =>
            rw [hemb] at hch
            cases hch
        | some v =>
            rw [hemb] at hch
            have hch2 : ch ∈ (if v = [] then ((false : Bool), ([] : List Row))
                else if addOk then
                  (true, [(⟨text, v, source, ts, metadata⟩ : Row)])
                else (false, [])).2 := hch
            by_cases hv : v = []
            · rw [if_pos hv] at hch2
              cases hch2
            · rw [if_neg hv] at hch2
              cases addOk with
              | true =>
                  rcases List.mem_cons.mp hch2 with h1 | h1
                  · rw [h1]
                  · cases h1
              | false => cases hch2
      rw [htext]
      omega

/-- Witness for C10: a three-item batch keeps only the one long-enough
text, and an 8-character single chunk is rejected. -/
theorem claim_C10_witness :
    ((storeWisdomChunksBatch (fun _ => some ([] : List ℚ)) true
        [⟨some "a sufficiently long chunk", "s", "m"⟩,
         ⟨some "short", "s2", "m"⟩, ⟨none, "s3", "m"⟩] 5).1
      = (storeWisdomChunksBatch (fun _ => some ([] : List ℚ)) true
        [⟨some "a sufficiently long chunk", "s", "m"⟩,
         ⟨some "short", "s2", "m"⟩, ⟨none, "s3", "m"⟩] 5).2.length) ∧
    ((⟨"a sufficiently long chunk", [], "s", 5, "m"⟩ : Row)
        ∈ (storeWisdomChunksBatch (fun _ => some ([] : List ℚ)) true
        [⟨some "a sufficiently long chunk", "s", "m"⟩,
         ⟨some "short", "s2", "m"⟩, ⟨none, "s3", "m"⟩] 5).2) ∧
    (10 ≤ ("a sufficiently long chunk" : String).length ∧
      ∃ it ∈ [(⟨some "a sufficiently long chunk", "s", "m"⟩ : BatchItem),
         ⟨some "short", "s2", "m"⟩, ⟨none, "s3", "m"⟩],
        it.text = some "a sufficiently long chunk") ∧
    (("x" : String) = "" ∨ ("x" : String).length < 10) ∧
    storeWisdomChunk (fun _ => some ([] : List ℚ)) true "x" "s" "m" 5 = (false, []) :=
  ⟨(claim_C10_min_text_length.1 (fun _ => some ([] : List ℚ)) true
      [⟨some "a sufficiently long chunk", "s", "m"⟩,
       ⟨some "short", "s2", "m"⟩, ⟨none, "s3", "m"⟩] 5).1,
   by decide,
   (claim_C10_min_text_length.1 (fun _ => some ([] : List ℚ)) true
      [⟨some "a sufficiently long chunk", "s", "m"⟩,
       ⟨some "short", "s2", "m"⟩, ⟨none, "s3", "m"⟩] 5).2
      (⟨"a sufficiently long chunk", [], "s", 5, "m"⟩ : Row) (by decide),
   by decide,
   claim_C10_min_text_length.2.1 (fun _ => some ([] : List ℚ)) true "x" "s" "m" 5
     (by decide)⟩

/-! ### `VectorStore.add` / `VectorStore.search` -/

/-- A refined search result (`search` builds these from the merged rows). -/
structure SRes where
  text : String
  source : String
  score : ℚ
  timestamp : Nat
  metadata : String
  searchMode : String
deriving DecidableEq

/-- The fingerprint `_cache_key(f"{query}:{top_k}:{search_mode}:{rerank}:{alpha}")`,
modelled as the tuple itself (collision-free abstraction of the hash). -/
structure QueryKey where
  query : String
  topK : Nat
  mode : String
  rerank : Bool
  alpha : ℚ
deriving DecidableEq

/-- Mutable `VectorStore` state: the optional table, the `_query_cache`
dict (fingerprint → (timestamp, results)) and the `_fts_ready` flag. -/
structure VSState where
  table : Option (List Row)
  queryCache : List (QueryKey × Nat × List SRes)
  ftsReady : Bool
deriving DecidableEq

/-- In-place dict update for the query cache (same semantics as `setA`). -/
def setQ {α : Type} : List (QueryKey × α) → QueryKey → α → List (QueryKey × α)
  | [], k, v => [(k, v)]
  | (k', v') :: rest, k, v =>
      if k' = k then (k, v) :: rest else (k', v') :: setQ rest k v

/-- External dependencies of `search`: `get_query_embedding` (expansion and
LRU cache collapsed into one deterministic map over an abstract vector type
`V`), the LanceDB ANN call `tbl.search(vec).limit(k).to_list()`, the BM25
call `tbl.search(query, query_type="fts")`, whether an FTS index can be
obtained (`_ensure_fts_index`), and `_rerank` (scores paired with rows). -/
structure SearchEnv (V : Type) where
  qembed : String → Option V
  ann : List Row → V → Nat → List Row
  ftsAvailable : Bool
  fts : List Row → String → Nat → List Row
  rerank : String → List Row → Nat → List (Row × ℚ)

/-- `VectorStore.add`: normalize sources to forward slashes, then append to
the table, creating it from the batch when absent. -/
def vsAdd (st : VSState) (items : List Row) : Bool × VSState :=
  if items = [] then (false, st)
  else
    let items := items.map (fun r =>
      { r with source := (String.mk
          (r.source.toList.map (fun c => if c = '\\' then '/' else c))) })
    match st.table with
    | some rows => (true, { st with table := some (rows ++ items) })
    | none => (true, { st with table := some items })

/-- `VectorStore._ensure_fts_index`, collapsed to the availability flag. -/
def ensureFts {V : Type} (env : SearchEnv V) (st : VSState) : Bool × VSState :=
  if st.ftsReady then (true, st)
  else if env.ftsAvailable then (true, { st with ftsReady := true })
  else (false, st)

/-- The uncached body of `VectorStore.search`. -/
def vsSearchUncached {V : Type} (env : SearchEnv V) (st : VSState) (now : Nat)
    (query : String) (topK : Nat) (mode : String) (rerank : Bool) (alpha : ℚ)
    (key : QueryKey) : List SRes × VSState :=
  match st.table with
  | none => ([], st)
  | some rows =>
      let retrieveK := min (topK * 3) 30
      let embOpt := if mode = "vector" ∨ mode = "hybrid"
                    then env.qembed query else none
      if mode = "vector" ∧ embOpt.isNone then ([], st)
      else
        let vecResults := match embOpt with
          | some v => env.ann rows v retrieveK
          | none => []
        let ftsPair :=
          if mode = "keyword" ∨ mode = "hybrid" then
            let p := ensureFts env st
            (if p.1 then env.fts rows query retrieveK else [], p.2)
          else ([], st)
        let ftsResults := ftsPair.1
        let st2 := ftsPair.2
        let merged :=
          if mode = "vector" then vecResults.take (topK * 2)
          else if mode = "keyword" then ftsResults.take (topK * 2)
          else if vecResults ≠ [] ∧ ftsResults ≠ [] then
            rrfFuseWeighted vecResults ftsResults alpha 60 (topK * 2)
          else if vecResults ≠ [] then vecResults.take (topK * 2)
          else ftsResults.take (topK * 2)
        let scored :=
          if rerank ∧ merged ≠ [] then
            (env.rerank query merged topK).map (fun p => (p.1, some p.2))
          else (merged.take topK).map (fun r => (r, (none : Option ℚ)))
        let refined := scored.enum.map (fun rr =>
          (⟨rr.2.1.text, rr.2.1.source, (rr.2.2).getD (1 / ((rr.1 : ℚ) + 1)),
            rr.2.1.timestamp, rr.2.1.metadata, mode⟩ : SRes))
        (refined, { st2 with queryCache := setQ st2.queryCache key (now, refined) })

/-- `VectorStore.search`: serve from the query cache when the entry is
younger than 60 s, otherwise run the pipeline and cache the result. -/
def vsSearch {V : Type} (env : SearchEnv V) (st : VSState) (now : Nat)
    (query : String) (topK : Nat) (mode : String) (rerank : Bool) (alpha : ℚ) :
    List SRes × VSState :=
  match st.queryCache.lookup (⟨query, topK, mode, rerank, alpha⟩ : QueryKey) with
  | some tsres =>
      if now - tsres.1 < 60 then (tsres.2, st)
      else vsSearchUncached env st now query topK mode rerank alpha
        ⟨query, topK, mode, rerank, alpha⟩
  | none => vsSearchUncached env st now query topK mode rerank alpha
      ⟨query, topK, mode, rerank, alpha⟩

/-- An idealized environment for the add/search round trip: vectors are the
texts themselves, and the ANN engine has perfect recall (rows whose text
equals the query vector come first). -/
def exEnv : SearchEnv String :=
  { qembed := fun q => some q
  , ann := fun rows v k =>
      ((rows.filter (fun r => r.text == v))
        ++ rows.filter (fun r => r.text != v)).take k
  , ftsAvailable := false
  , fts := fun _ _ _ => []
  , rerank := fun _ rows k => (rows.take k).map (fun r => (r, 1)) }

/-- The fixed alpha used in the concrete C8 scenarios. -/
def exAlpha : ℚ := mkRat 1 2

/-- The pre-existing table row of the C8 scenario. -/
def exRowX : Row := ⟨"X", [], "sx", 0, "{}"⟩

/-- The chunk added in the C8 scenario. -/
def exRowY : Row := ⟨"Y", [], "sy", 1, "{}"⟩

/-- The initial store state of the C8 scenario. -/
def exSt : VSState := ⟨some [exRowX], [], false⟩

/-- C8 counterexample: even with a perfect-recall ANN engine, a vector-mode
`search("Y", 1)` that ran moments before the `add` leaves a cache entry
younger than 60 s, so the search after a successful `add` replays the stale
result and returns no item with the added text. -/
theorem claim_C8_counterexample :
    (vsAdd (vsSearch exEnv exSt 0 "Y" 1 "vector" false exAlpha).2 [exRowY]).1
        = true ∧
    ((vsSearch exEnv
        (vsAdd (vsSearch exEnv exSt 0 "Y" 1 "vector" false exAlpha).2
          [exRowY]).2
        10 "Y" 1 "vector" false exAlpha).1.map (·.text)) = ["X"] := by
  decide

/-- The uncached vector-mode pipeline surfaces the ANN engine's top row:
with a successful embedding and a first-ranked row, `search(q, 1)` returns
exactly that row's text. -/
theorem vsSearchUncached_vector_hit {V : Type} (env : SearchEnv V)
    (st : VSState) (now : Nat) (q : String) (alpha : ℚ) (key : QueryKey)
    (rows : List Row) (v : V) (r : Row) (rest : List Row)
    (h1 : st.table = some rows)
    (h2 : env.qembed q = some v)
    (h3 : env.ann rows v 3 = r :: rest) :
    ∃ res ∈ (vsSearchUncached env st now q 1 "vector" false alpha key).1,
      res.text = r.text := by
  unfold vsSearchUncached
  rw [h1]
  simp [h2, h3]

/-- When every cache entry for the fingerprint is at least 60 s old (or no
entry exists), `search` falls through to the uncached pipeline. -/
theorem vsSearch_stale {V : Type} (env : SearchEnv V) (st : VSState) (now : Nat)
    (q : String) (topK : Nat) (mode : String) (rerank : Bool) (alpha : ℚ)
    (h : ∀ e ∈ st.queryCache.lookup (⟨q, topK, mode, rerank, alpha⟩ : QueryKey),
      ¬ (now - e.1 < 60)) :
    vsSearch env st now q topK mode rerank alpha
      = vsSearchUncached env st now q topK mode rerank alpha
          ⟨q, topK, mode, rerank, alpha⟩ := by
  unfold vsSearch
  split
  next tsres htsres =>
    rw [if_neg (h tsres (by rw [htsres]; rfl))]
  next htsres =>
    rfl

/-- C8 (amended): after a successful `add([c])`, a vector-mode
`search(c.text, 1)` returns an item whose text equals `c.text`, provided
(i) the query-result cache holds no entry younger than 60 s for the call's
fingerprint, (ii) the query embedding succeeds, and (iii) the external ANN
engine ranks a row carrying the added text first among the retrieved
candidates (recall assumption on LanceDB).  Without (i) the stale cached
list is replayed — see the counterexample. -/
theorem claim_C8_add_then_search {V : Type} (env : SearchEnv V) (st : VSState)
    (c : Row) (alpha : ℚ) (now : Nat) (rows : List Row) (v : V) (r : Row)
    (rest : List Row)
    (hrows : (vsAdd st [c]).2.table = some rows)
    (hcache : ∀ e ∈ (vsAdd st [c]).2.queryCache.lookup
        (⟨c.text, 1, "vector", false, alpha⟩ : QueryKey), ¬ (now - e.1 < 60))
    (hemb : env.qembed c.text = some v)
    (hann : env.ann rows v 3 = r :: rest)
    (hr : r.text = c.text) :
    (vsAdd st [c]).1 = true ∧
    ∃ res ∈ (vsSearch env (vsAdd st [c]).2 now c.text 1 "vector" false alpha).1,
      res.text = c.text := by
  constructor
  · unfold vsAdd
    rw [if_neg (by simp)]
    cases st.table <;> rfl
  · rw [vsSearch_stale env _ now c.text 1 "vector" false alpha hcache]
    obtain ⟨res, hmem, htext⟩ := vsSearchUncached_vector_hit env _ now
      c.text alpha ⟨c.text, 1, "vector", false, alpha⟩ rows v r rest
      hrows hemb hann
    exact ⟨res, hmem, htext.trans hr⟩

/-- Witness for the amended C8 in the idealized environment, with an empty
query cache. -/
theorem claim_C8_witness :
    (vsAdd (⟨some [exRowX], [], false⟩ : VSState) [exRowY]).2.table
        = some [exRowX, exRowY] ∧
    exEnv.qembed "Y" = some "Y" ∧
    exEnv.ann [exRowX, exRowY] "Y" 3 = exRowY :: [exRowX] ∧
    ((vsAdd (⟨some [exRowX], [], false⟩ : VSState) [exRowY]).1 = true ∧
      ∃ res ∈ (vsSearch exEnv
        (vsAdd (⟨some [exRowX], [], false⟩ : VSState) [exRowY]).2
        10 "Y" 1 "vector" false exAlpha).1, res.text = "Y") :=
  ⟨by decide, rfl, by decide,
   claim_C8_add_then_search exEnv (⟨some [exRowX], [], false⟩ : VSState)
     exRowY exAlpha 10 [exRowX, exRowY] "Y" exRowY [exRowX]
     (by decide) (fun e he => nomatch he) rfl (by decide) rfl⟩

/- ## C9: fuzzy-match safety in `resolve_model` / `resolve_client`
(agent_profiles.py:1193-1270).

A `ModelSpec` / `ClientSpec` is represented by its `id` field, which in the
source equals the dict key for every catalog entry, so the catalogs become
insertion-ordered association lists from key to id.  The source literal of
MODEL_CATALOG repeats the key "llama-3.3-70b" (two entries with the same key
and the same id); a Python dict keeps the first position and the later value,
so the ordered
list below, with one "llama-3.3-70b" entry at its first position, is the
dict's exact key order.  `difflib.get_close_matches(normalized, all_keys,
n=1, cutoff=0.85)` is an external library call, abstracted as a parameter
`fuzzy : String → List String → ℚ → Option String` (query, candidate keys,
cutoff ↦ best match); the resolvers pass it the literal cutoff `FUZZY_CUTOFF`. -/

/-- The insertion-ordered keys of `MODEL_CATALOG` (agent_profiles.py). -/
def modelCatalogKeys : List String :=
  ["claude-opus-4-6", "claude-sonnet-4-5", "claude-haiku-4-5", "gpt-4o",
   "gpt-4o-mini", "gpt-o1", "gpt-o3", "gpt-o3-mini", "gpt-5.3-codex",
   "gpt-5.2-xhigh", "gpt-5.2-medium", "gpt-5.1-mini", "gemini-2.5-pro",
   "gemini-2.5-flash", "gemini-2.5-flash-lite", "gemini-2.0-flash",
   "deepseek-r1", "deepseek-v3", "deepseek-v3.1", "mistral-large-2411",
   "codestral", "mistral-medium", "mistral-small", "llama-3.3-70b",
   "llama-4-maverick", "llama-4-scout", "qwen-2.5-7b", "qwen-2.5-coder-32b",
   "qwen-3-coder", "glm-4.5-air", "qwen3-coder", "gemma-3-27b",
   "mistral-small-3.1", "deepseek-r1-0528", "hermes-3-405b", "gpt-oss-120b",
   "qwen3-next-80b", "kimi-k2.5", "minimax-m2.5", "big-pickle", "glm-5"]

/-- `MODEL_CATALOG` as an ordered association list key ↦ spec id; in the
source every spec's `id` equals its key. -/
def MODEL_CATALOG : List (String × String) :=
  modelCatalogKeys.map (fun k => (k, k))

/-- `_MODEL_ALIASES` (agent_profiles.py:1044-1155): ordered alias ↦ catalog
key. -/
def MODEL_ALIASES : List (String × String) :=
  [("opus", "claude-opus-4-6"), ("opus 4.6", "claude-opus-4-6"),
   ("claude opus", "claude-opus-4-6"), ("claude-opus", "claude-opus-4-6"),
   ("sonnet", "claude-sonnet-4-5"), ("sonnet 4.5", "claude-sonnet-4-5"),
   ("claude sonnet", "claude-sonnet-4-5"),
   ("claude-sonnet", "claude-sonnet-4-5"),
   ("haiku", "claude-haiku-4-5"), ("haiku 4.5", "claude-haiku-4-5"),
   ("claude haiku", "claude-haiku-4-5"), ("claude-haiku", "claude-haiku-4-5"),
   ("gpt4o", "gpt-4o"), ("gpt 4o", "gpt-4o"), ("gpt4o-mini", "gpt-4o-mini"),
   ("gpt 4o mini", "gpt-4o-mini"), ("o1", "gpt-o1"), ("o3", "gpt-o3"),
   ("o3-mini", "gpt-o3-mini"), ("gpt-5.3", "gpt-5.3-codex"),
   ("gpt 5.3", "gpt-5.3-codex"), ("gpt53", "gpt-5.3-codex"),
   ("gpt-5.3 codex", "gpt-5.3-codex"), ("gpt 5.3 codex", "gpt-5.3-codex"),
   ("gpt-5-codex", "gpt-5.3-codex"), ("gpt-5.2-high", "gpt-5.2-xhigh"),
   ("gpt-5.2 xhigh", "gpt-5.2-xhigh"), ("gpt 5.2 xhigh", "gpt-5.2-xhigh"),
   ("gpt-5.2 medium", "gpt-5.2-medium"), ("gpt 5.2 medium", "gpt-5.2-medium"),
   ("gpt-5.2", "gpt-5.2-medium"), ("gpt 5.2", "gpt-5.2-medium"),
   ("gpt-5.1", "gpt-5.1-mini"), ("gpt 5.1", "gpt-5.1-mini"),
   ("gpt-5-mini", "gpt-5.1-mini"), ("gpt 5 mini", "gpt-5.1-mini"),
   ("gpt-5.1 mini", "gpt-5.1-mini"), ("gpt 5.1 mini", "gpt-5.1-mini"),
   ("gemini pro", "gemini-2.5-pro"), ("gemini-pro", "gemini-2.5-pro"),
   ("gemini flash", "gemini-2.5-flash"), ("gemini-flash", "gemini-2.5-flash"),
   ("gemini flash lite", "gemini-2.5-flash-lite"),
   ("deepseek", "deepseek-r1"), ("deepseek r1", "deepseek-r1"),
   ("deepseek v3", "deepseek-v3"), ("llama", "llama-4-maverick"),
   ("llama 4", "llama-4-maverick"), ("maverick", "llama-4-maverick"),
   ("scout", "llama-4-scout"), ("qwen", "qwen-2.5-coder-32b"),
   ("qwen coder", "qwen-2.5-coder-32b"), ("qwen 3", "qwen-3-coder"),
   ("codestral-2508", "codestral"), ("mistral large", "mistral-large-2411"),
   ("mistral-large", "mistral-large-2411"), ("glm-4.5", "glm-4.5-air"),
   ("glm4.5", "glm-4.5-air"), ("glm 4.5", "glm-4.5-air"),
   ("glm-4.5-air:free", "glm-4.5-air"), ("z-ai/glm-4.5-air:free", "glm-4.5-air"),
   ("qwen3-coder:free", "qwen3-coder"), ("qwen/qwen3-coder:free", "qwen3-coder"),
   ("llama-3.3-70b-instruct", "llama-3.3-70b"), ("llama 3.3", "llama-3.3-70b"),
   ("meta-llama/llama-3.3-70b-instruct:free", "llama-3.3-70b"),
   ("gemma-3-27b-it", "gemma-3-27b"), ("gemma 3", "gemma-3-27b"),
   ("google/gemma-3-27b-it:free", "gemma-3-27b"),
   ("mistral-small-3.1-24b-instruct", "mistral-small-3.1"),
   ("mistral small", "mistral-small-3.1"),
   ("mistralai/mistral-small-3.1-24b-instruct:free", "mistral-small-3.1"),
   ("deepseek-r1", "deepseek-r1-0528"),
   ("deepseek/deepseek-r1-0528:free", "deepseek-r1-0528"),
   ("hermes-3", "hermes-3-405b"),
   ("nousresearch/hermes-3-llama-3.1-405b:free", "hermes-3-405b"),
   ("gpt-oss", "gpt-oss-120b"), ("openai/gpt-oss-120b:free", "gpt-oss-120b"),
   ("qwen3-next-80b-a3b-instruct", "qwen3-next-80b"),
   ("qwen/qwen3-next-80b-a3b-instruct:free", "qwen3-next-80b"),
   ("kimi", "kimi-k2.5"), ("kimi k2.5", "kimi-k2.5"), ("kimi-k2", "kimi-k2.5"),
   ("moonshotai/kimi-k2.5", "kimi-k2.5"),
   ("moonshotai/kimi-k2.5:free", "kimi-k2.5"),
   ("minimax", "minimax-m2.5"), ("minimax m2.5", "minimax-m2.5"),
   ("minimax-m2", "minimax-m2.5"), ("minimax/minimax-m2.5", "minimax-m2.5"),
   ("minimax/minimax-m2.5:free", "minimax-m2.5"),
   ("big pickle", "big-pickle"), ("bigpickle", "big-pickle"),
   ("bigpicke", "big-pickle"), ("opencode/big-pickle", "big-pickle"),
   ("glm5", "glm-5"), ("glm 5", "glm-5"), ("z-ai/glm-5", "glm-5"),
   ("z-ai/glm-5:free", "glm-5")]

/-- `CLIENT_CATALOG` as an ordered association list key ↦ spec id; in the
source every spec's `id` equals its key. -/
def CLIENT_CATALOG : List (String × String) :=
  ["claude-code", "codex-cli", "cursor", "windsurf", "cline", "continue",
   "aider", "zed", "github-copilot", "amazon-q", "replit", "lovable",
   "opencode"].map (fun k => (k, k))

/-- `_CLIENT_ALIASES` (agent_profiles.py:1157-1185): ordered alias ↦ catalog
key. -/
def CLIENT_ALIASES : List (String × String) :=
  [("claude code", "claude-code"), ("claudecode", "claude-code"),
   ("claude_code", "claude-code"), ("codex", "codex-cli"),
   ("codex cli", "codex-cli"), ("codex_cli", "codex-cli"),
   ("openai codex", "codex-cli"), ("anthropic", "claude-code"),
   ("copilot", "github-copilot"), ("github copilot", "github-copilot"),
   ("gh-copilot", "github-copilot"), ("amazon q", "amazon-q"),
   ("amazonq", "amazon-q"), ("q developer", "amazon-q"),
   ("replit agent", "replit"), ("windsurf cascade", "windsurf"),
   ("cascade", "windsurf"), ("continue.dev", "continue"),
   ("continuedev", "continue"), ("aider.chat", "aider"),
   ("zed editor", "zed"), ("lovable.dev", "lovable"),
   ("cline bot", "cline"), ("claude-dev", "cline"),
   ("open-code", "opencode"), ("open_code", "opencode"),
   ("open code", "opencode")]

/-- The literal fuzzy-match cutoff `0.85` passed to
`difflib.get_close_matches` at agent_profiles.py:1223 and :1262. -/
def FUZZY_CUTOFF : ℚ := mkRat 85 100

/-- `resolve_model` (agent_profiles.py:1193-1231): empty → None; normalize by
strip+lower; exact catalog key; alias; substring match against catalog keys
then alias keys (`cat_key in normalized or normalized in cat_key`); finally
the fuzzy matcher over all keys at cutoff 0.85, routed back through the
catalogs. -/
def resolve_model (fuzzy : String → List String → ℚ → Option String)
    (raw : String) : Option String :=
  if raw = "" then none
  else
    let normalized := strLower (strTrim raw)
    match MODEL_CATALOG.lookup normalized with
    | some spec => some spec
    | none =>
      match MODEL_ALIASES.lookup normalized with
      | some tgt => MODEL_CATALOG.lookup tgt
      | none =>
        match MODEL_CATALOG.find?
            (fun p => strContains normalized p.1 || strContains p.1 normalized)
          with
        | some p => some p.2
        | none =>
          match MODEL_ALIASES.find?
              (fun p => strContains normalized p.1 || strContains p.1 normalized)
            with
          | some p => MODEL_CATALOG.lookup p.2
          | none =>
            match fuzzy normalized
                (MODEL_CATALOG.map Prod.fst ++ MODEL_ALIASES.map Prod.fst)
                FUZZY_CUTOFF with
            | some key =>
              match MODEL_CATALOG.lookup key with
              | some spec => some spec
              | none =>
                match MODEL_ALIASES.lookup key with
                | some tgt => MODEL_CATALOG.lookup tgt
                | none => none
            | none => none

/-- `resolve_client` (agent_profiles.py:1234-1270): same staging as
`resolve_model` over the client catalogs. -/
def resolve_client (fuzzy : String → List String → ℚ → Option String)
    (raw : String) : Option String :=
  if raw = "" then none
  else
    let normalized := strLower (strTrim raw)
    match CLIENT_CATALOG.lookup normalized with
    | some spec => some spec
    | none =>
      match CLIENT_ALIASES.lookup normalized with
      | some tgt => CLIENT_CATALOG.lookup tgt
      | none =>
        match CLIENT_CATALOG.find?
            (fun p => strContains normalized p.1 || strContains p.1 normalized)
          with
        | some p => some p.2
        | none =>
          match CLIENT_ALIASES.find?
              (fun p => strContains normalized p.1 || strContains p.1 normalized)
            with
          | some p => CLIENT_CATALOG.lookup p.2
          | none =>
            match fuzzy normalized
                (CLIENT_CATALOG.map Prod.fst ++ CLIENT_ALIASES.map Prod.fst)
                FUZZY_CUTOFF with
            | some key =>
              match CLIENT_CATALOG.lookup key with
              | some spec => some spec
              | none =>
                match CLIENT_ALIASES.lookup key with
                | some tgt => CLIENT_CATALOG.lookup tgt
                | none => none
            | none => none

/-- C9: whatever the fuzzy matcher does, `resolve_model("glm")` resolves at
the substring stage to `glm-4.5-air` — whose id does not begin with
"gemini" — and `resolve_client("cursor")` exact-matches the `cursor` key,
whose id is not the `claude-code` id; the cutoff handed to the fuzzy stage
is the literal 0.85. -/
theorem claim_C9_fuzzy_match_safety :
    (∀ fuzzy, resolve_model fuzzy "glm" = some "glm-4.5-air") ∧
    strStarts "glm-4.5-air" "gemini" = false ∧
    (∀ fuzzy, resolve_client fuzzy "cursor" = some "cursor") ∧
    (("cursor" : String) == "claude-code") = false ∧
    FUZZY_CUTOFF = mkRat 85 100 :=
  ⟨fun _ => rfl, by decide, fun _ => rfl, by decide, rfl⟩

end MidosMCP
